import Mathlib

/-!
# Verification of the AdbClipboard sync script (adbclipboard.py)

A shallow embedding of the clipboard-sync program's core logic:
the ADB response protocol parsing (`_parse_broadcast_response`),
device-directory parsing (`get_connected_devices`), the file-encoding
pull (`read_from_device`), the push (`write_to_device` with its
`urllib.parse.quote_plus` encoding), and one tick of the sync loop
(`sync_with_devices` / `_sync_clipboard_to_devices` /
`_sync_clipboard_from_devices`).

Strings are modelled as `List Char` (`Str`), which keeps Python's
character-level operations (strip, split, substring search, regex
semantics) directly tractable.  External process invocations are
modelled by their captured results (`CompletedProcess`), matching
`subprocess.run`: `Option CompletedProcess` is the return type of
`CommandRunner.run_command` (with `none` for the spawn-failure /
timeout / exception paths that return Python `None`).
-/

/-- Python strings modelled as lists of characters. -/
abbrev Str := List Char

deriving instance DecidableEq for Except

/-- The double-quote character (used by the broadcast `data="..."` field). -/
def quoteChar : Char := Char.ofNat 34

/-- Python `str.isspace`-class characters as stripped by `str.strip()`
(ASCII whitespace: space, tab, newline, carriage return, vertical tab,
form feed).  `str.strip()` with no argument strips exactly these (plus
further Unicode whitespace, irrelevant to the ASCII protocol text here). -/
def pyIsSpace (c : Char) : Bool :=
  c = ' ' || c = '\t' || c = '\n' || c = '\r' || c = Char.ofNat 11 || c = Char.ofNat 12

/-- Leading-whitespace removal, the left half of Python `str.strip()`. -/
def pyStripLeft (s : Str) : Str := s.dropWhile pyIsSpace

/-- Trailing-whitespace removal, the right half of Python `str.strip()`. -/
def pyStripRight (s : Str) : Str := (s.reverse.dropWhile pyIsSpace).reverse

/-- Python `str.strip()`: remove leading and trailing whitespace. -/
def pyStrip (s : Str) : Str := pyStripRight (pyStripLeft s)

/-- Python `str.split(sep)` for a one-character separator: splits on every
occurrence; the empty string yields `[""]`. -/
def pySplit (sep : Char) : Str → List Str
  | [] => [[]]
  | c :: rest =>
    if c = sep then [] :: pySplit sep rest
    else
      match pySplit sep rest with
      | [] => [[c]]
      | h :: t => (c :: h) :: t

/-- Python `pat in s` substring containment test. -/
def occurs (pat : Str) : Str → Bool
  | [] => pat.isEmpty
  | c :: rest => pat.isPrefixOf (c :: rest) || occurs pat rest

/-- Model of `subprocess.CompletedProcess` as captured by
`CommandRunner.run_command` (text mode: stdout/stderr are strings). -/
structure CompletedProcess where
  returncode : Int
  stdout : Str
  stderr : Str
deriving DecidableEq, Repr

/-- `ResponseStatus` enum of adbclipboard.py (`SUCCESS = -1`, `ERROR = 1`;
only the tag identity matters to the program). -/
inductive ResponseStatus where
  | SUCCESS
  | ERROR
deriving DecidableEq, Repr

/-- `Response` dataclass of adbclipboard.py: a status plus a data payload,
defaulting to `Response(ResponseStatus.ERROR, "")`. -/
structure Response where
  status : ResponseStatus := .ERROR
  data : Str := []
deriving DecidableEq, Repr

/-- The literal status marker `'device'` from `get_connected_devices`. -/
def deviceStr : Str := ['d', 'e', 'v', 'i', 'c', 'e']

/-- The stderr marker `"No such file or directory"` checked by
`read_from_device`. -/
def noSuchFileStr : Str :=
  ['N', 'o', ' ', 's', 'u', 'c', 'h', ' ', 'f', 'i', 'l', 'e', ' ', 'o', 'r',
   ' ', 'd', 'i', 'r', 'e', 'c', 't', 'o', 'r', 'y']

/-- The per-line body of `get_connected_devices`'s loop: lines passing
`line.strip()` truthiness and `'\t' in line` are split on tabs, and the
handle (field 0) is kept exactly when the status (field 1) equals
`'device'`. -/
def deviceOfLine (line : Str) : Option Str :=
  if pyStrip line ≠ [] ∧ occurs ['\t'] line then
    match pySplit '\t' line with
    | a :: b :: _ => if b = deviceStr then some a else none
    | _ => none
  else none

/-- `AdbManager.get_connected_devices`: on a failed `adb devices` call
(`None` result or non-zero exit) return `[]`; otherwise strip the stdout,
split into lines, drop the header line, and collect handles of lines whose
tab-separated status is `'device'`. -/
def get_connected_devices (result : Option CompletedProcess) : List Str :=
  match result with
  | none => []
  | some r =>
    if r.returncode ≠ 0 then []
    else ((pySplit '\n' (pyStrip r.stdout)).drop 1).filterMap deviceOfLine

/-- `AdbManager.read_from_device`, as a function of the captured result of
`adb -s <dev> shell cat <path>`.  Returns the `Response` together with a
flag recording whether the cleanup command (`shell rm`) was issued.
`None` result ⟹ Error; non-zero exit with a `No such file or directory`
stderr ⟹ Success with empty data (the expected-absence case); any other
non-zero exit ⟹ Error; success ⟹ Success with the stripped stdout,
issuing cleanup exactly when the stripped content is non-empty. -/
def read_from_device (result : Option CompletedProcess) : Response × Bool :=
  match result with
  | none => (⟨.ERROR, []⟩, false)
  | some r =>
    if r.returncode ≠ 0 ∧ r.stderr ≠ [] ∧ occurs noSuchFileStr r.stderr then
      (⟨.SUCCESS, []⟩, false)
    else if r.returncode ≠ 0 then
      (⟨.ERROR, []⟩, false)
    else
      let content := pyStrip r.stdout
      (⟨.SUCCESS, content⟩, content ≠ [])

/-! ## Broadcast response parsing (`AdbManager._parse_broadcast_response`)

The Python code matches `re.compile(r".*\n.*result=([-]?\d*).*").match(s)`.
Since `.` does not span newlines and `match` anchors at the start, the
first `.*` consumes exactly the first line, `\n` the first newline, and
the greedy `.*result=` selects the LAST occurrence of `result=` on the
SECOND line; group 1 is then the maximal `[-]?\d*` run after it.  On a
`-1` result the data regex `re.compile(r'.*\n.*data="(.*)"$', re.DOTALL)`
is matched: with DOTALL the wildcards span newlines, `$` forces the
closing quote to sit at the end of the string (or just before one final
trailing newline), and greediness selects the LAST `data="` occurrence
preceded by at least one newline; the payload is everything between that
occurrence and the closing quote.  The definitions below implement these
regex semantics directly. -/

/-- The literal `result=` searched for by the broadcast-result regex. -/
def resultPat : Str := ['r', 'e', 's', 'u', 'l', 't', '=']

/-- The literal `data="` searched for by the broadcast-data regex. -/
def dataPat : Str := ['d', 'a', 't', 'a', '=', quoteChar]

/-- The text matched by `([-]?\d*)` (greedy, maximal munch) at the start
of `t`: an optional minus sign followed by the maximal run of digits. -/
def grpAfter : Str → Str
  | [] => []
  | c :: rest =>
    if c = '-' then '-' :: rest.takeWhile Char.isDigit
    else (c :: rest).takeWhile Char.isDigit

/-- The suffix following the LAST occurrence of `pat` in `s`
(`none` when `pat` does not occur), as selected by a greedy `.*pat`. -/
def lastOccSuffix (pat : Str) : Str → Option Str
  | [] => if pat.isEmpty then some [] else none
  | c :: rest =>
    match lastOccSuffix pat rest with
    | some r => some r
    | none =>
      if pat.isPrefixOf (c :: rest) then some ((c :: rest).drop pat.length)
      else none

/-- The suffix following the LAST occurrence of `pat` in `s` that is
preceded (anywhere earlier in `s`, or already by `seen`) by a newline —
the occurrence selected by a greedy DOTALL `.*\n.*pat`. -/
def lastOccSuffixNl (pat : Str) (seen : Bool) : Str → Option Str
  | [] => none
  | c :: rest =>
    match lastOccSuffixNl pat (seen || c = '\n') rest with
    | some r => some r
    | none =>
      if seen ∧ pat.isPrefixOf (c :: rest) then
        some ((c :: rest).drop pat.length)
      else none

/-- Decimal value of a digit string. -/
def natOfDigits (ds : Str) : Nat :=
  ds.foldl (fun n c => 10 * n + (c.toNat - 48)) 0

/-- Python `int(g)` restricted to regex-group texts of shape `[-]?\d*`:
`none` models the `ValueError` raised on a bare `"-"` (or empty) group. -/
def strToInt : Str → Option Int
  | [] => none
  | c :: ds =>
    if c = '-' then
      if ds ≠ [] ∧ ds.all Char.isDigit then
        some (-(Int.ofNat (natOfDigits ds)))
      else none
    else
      if (c :: ds).all Char.isDigit then some (Int.ofNat (natOfDigits (c :: ds)))
      else none

/-- The shape of a parsable integer group: `[-]?\d+` — an optional minus
sign followed by at least one digit (used to state the C1 claim). -/
def isIntText (g : Str) : Prop :=
  (∃ ds, g = '-' :: ds ∧ ds ≠ [] ∧ ∀ c ∈ ds, c.isDigit = true) ∨
  (g ≠ [] ∧ ∀ c ∈ g, c.isDigit = true)

/-- The text before the closing quote demanded by `"(.*)"$` in DOTALL
mode: the quote is the last character of `s`, or directly before one
final trailing newline. -/
def dataCore (s : Str) : Option Str :=
  match s.reverse with
  | q :: rest =>
    if q = quoteChar then some rest.reverse
    else
      match rest with
      | q2 :: rest2 =>
        if q = '\n' ∧ q2 = quoteChar then some rest2.reverse else none
      | [] => none
  | [] => none

/-- The payload part of `s` under the DOTALL regex `.*\n.*data="(.*)"$`:
the closing quote as located by `dataCore`, the payload running from the
last newline-preceded `data="` occurrence to that closing quote. -/
def dataGroup (s : Str) : Option Str :=
  (dataCore s).bind (lastOccSuffixNl dataPat false)

/-- `AdbManager._parse_broadcast_response`.  `Except.error ()` models the
uncaught `ValueError` from `int()` when the matched group is a bare minus
sign; all other paths return the `Response` the Python code builds. -/
def parse_broadcast_response (s : Str) : Except Unit Response :=
  match pySplit '\n' s with
  | _ :: l2 :: _ =>
    match lastOccSuffix resultPat l2 with
    | some t =>
      let g := grpAfter t
      if g = [] then .ok ⟨.ERROR, []⟩
      else
        match strToInt g with
        | some v =>
          if v = -1 then .ok ⟨.SUCCESS, (dataGroup s).getD []⟩
          else .ok ⟨.ERROR, []⟩
        | none => .error ()
    | none => .ok ⟨.ERROR, []⟩
  | _ => .ok ⟨.ERROR, []⟩

/-- `AdbManager.write_to_device`, as a function of the text pushed and the
captured result of the broadcast command.  The text itself only feeds the
command line (URL-encoded, see `quote_plus`); the returned `Response` is
determined by the captured result: `None` or non-zero exit ⟹ Error,
otherwise the parsed broadcast response. -/
def write_to_device (_text : Str) (result : Option CompletedProcess) :
    Except Unit Response :=
  match result with
  | none => .ok ⟨.ERROR, []⟩
  | some r =>
    if r.returncode ≠ 0 then .ok ⟨.ERROR, []⟩
    else parse_broadcast_response r.stdout

/-! ## Push encoding (`urllib.parse.quote_plus`) and its inverse

`write_to_device` encodes the pushed text with `urllib.parse.quote_plus`
before placing it on the adb command line.  `quote_plus` UTF-8-encodes
the string and then maps each byte: ASCII letters, digits and `_.-~`
stay literal, a space becomes `+`, and every other byte becomes
`%XX` with uppercase hex digits.  The decode direction
(`urllib.parse.unquote_plus`) is modelled from CPython's semantics:
`+` becomes a space, `%XX` (hex, case-insensitive) becomes the byte
`XX`, other characters stand for their own UTF-8 bytes, and the
resulting byte sequence is decoded as (strict) UTF-8. -/

/-- UTF-8 encoding of a single Unicode code point (1–4 bytes). -/
def utf8EncodeCp (n : Nat) : List Nat :=
  if n < 128 then [n]
  else if n < 2048 then [192 + n / 64, 128 + n % 64]
  else if n < 65536 then [224 + n / 4096, 128 + n / 64 % 64, 128 + n % 64]
  else [240 + n / 262144, 128 + n / 4096 % 64, 128 + n / 64 % 64, 128 + n % 64]

/-- The bytes `quote_plus` leaves literal: ASCII alphanumerics and
`_`, `.`, `-`, `~` (urllib's always-safe set with `safe=''`). -/
def isSafeByte (b : Nat) : Bool :=
  (65 ≤ b && b ≤ 90) || (97 ≤ b && b ≤ 122) || (48 ≤ b && b ≤ 57) ||
  b = 95 || b = 46 || b = 45 || b = 126

/-- Uppercase hexadecimal digit for `n < 16`, as used in `%XX` escapes. -/
def hexDigitChar (n : Nat) : Char :=
  if n < 10 then Char.ofNat (48 + n) else Char.ofNat (55 + n)

/-- `quote_plus`'s treatment of one UTF-8 byte: space becomes `+`, safe
bytes stay literal, the rest become `%XX`. -/
def quoteByte (b : Nat) : Str :=
  if b = 32 then ['+']
  else if isSafeByte b then [Char.ofNat b]
  else ['%', hexDigitChar (b / 16), hexDigitChar (b % 16)]

/-- `urllib.parse.quote_plus` on a string: UTF-8 bytes, each quoted. -/
def quote_plus (s : Str) : Str :=
  s.flatMap (fun c => (utf8EncodeCp c.toNat).flatMap quoteByte)

/-- Value of one hexadecimal digit character (case-insensitive). -/
def hexVal (c : Char) : Option Nat :=
  if 48 ≤ c.toNat ∧ c.toNat ≤ 57 then some (c.toNat - 48)
  else if 65 ≤ c.toNat ∧ c.toNat ≤ 70 then some (c.toNat - 55)
  else if 97 ≤ c.toNat ∧ c.toNat ≤ 102 then some (c.toNat - 87)
  else none

/-- Percent-decoding into a byte sequence, CPython `unquote_plus` style:
`%XX` (valid hex) yields byte `XX`, `+` yields a space byte, a `%` not
followed by two hex digits stays literal, and any other character stands
for its own UTF-8 bytes. -/
def percentDecode : Str → List Nat
  | [] => []
  | '%' :: h1 :: h2 :: rest =>
    match hexVal h1, hexVal h2 with
    | some a, some b => (16 * a + b) :: percentDecode rest
    | _, _ => 37 :: percentDecode (h1 :: h2 :: rest)
  | '+' :: rest => 32 :: percentDecode rest
  | c :: rest => utf8EncodeCp c.toNat ++ percentDecode rest

/-- One step of strict UTF-8 decoding: the state is `none` between
characters, or `some (need, acc, low)` inside a multi-byte sequence with
`need` continuation bytes outstanding, `acc` the accumulated value and
`low` the smallest code point the sequence is allowed to produce (the
overlong check); surrogates and out-of-range values are rejected when a
sequence completes.  `none` overall result on malformed input. -/
def utf8DecodeAux : Option (Nat × Nat × Nat) → List Nat → Option (List Nat)
  | none, [] => some []
  | none, b :: rest =>
    if b < 128 then (utf8DecodeAux none rest).map (b :: ·)
    else if 194 ≤ b ∧ b < 224 then utf8DecodeAux (some (1, b - 192, 128)) rest
    else if 224 ≤ b ∧ b < 240 then utf8DecodeAux (some (2, b - 224, 2048)) rest
    else if 240 ≤ b ∧ b < 245 then utf8DecodeAux (some (3, b - 240, 65536)) rest
    else none
  | some _, [] => none
  | some (need, acc, low), b :: rest =>
    if 128 ≤ b ∧ b < 192 then
      if need = 1 then
        if low ≤ acc * 64 + (b - 128) ∧
            (acc * 64 + (b - 128) < 55296 ∨ 57343 < acc * 64 + (b - 128)) ∧
            acc * 64 + (b - 128) < 1114112 then
          (utf8DecodeAux none rest).map ((acc * 64 + (b - 128)) :: ·)
        else none
      else utf8DecodeAux (some (need - 1, acc * 64 + (b - 128), low)) rest
    else none

/-- Strict UTF-8 decoding of a byte sequence into code points (`none` on
malformed input: bad leading byte, bad continuation, overlong form,
surrogate, or out-of-range code point). -/
def utf8DecodeBytes (bs : List Nat) : Option (List Nat) :=
  utf8DecodeAux none bs

/-- `urllib.parse.unquote_plus` (modelled from CPython's semantics, see
above): percent-decode to bytes, then UTF-8-decode to characters. -/
def unquote_plus (s : Str) : Option Str :=
  (utf8DecodeBytes (percentDecode s)).map (List.map Char.ofNat)

/-! ## One tick of the sync loop (`ClipboardSyncManager`)

The loop body of `sync_with_devices` is modelled as a pure function of
the loop's only state (`previous_clipboard : Option Str`, `none` being
Python's `None`), the device list for the tick, and the environment of
this tick: the two desktop-clipboard reads (`_sync_clipboard_to_devices`
and `_sync_clipboard_from_devices` each call `read_clipboard()` once)
and the per-device `Response` of the write/read ADB operations.  Besides
the updated baseline, the model emits the tick's observable actions, in
program order, as a list of `Event`s. -/

/-- Observable actions of one sync-loop tick, in program order. -/
inductive Event where
  /-- `self.previous_clipboard = v` (`none` = Python `None`). -/
  | setBaseline (v : Option Str)
  /-- `self.adb_manager.write_to_device(device, text)` (raw text; the adb
  command line carries `quote_plus text`). -/
  | pushTo (device : Str) (text : Str)
  /-- `self.adb_manager.read_from_device(device)`. -/
  | pullFrom (device : Str)
  /-- `self.clipboard_handler.write_clipboard(v)`. -/
  | writeClip (v : Str)
  /-- `time.sleep(secs)`. -/
  | sleep (secs : Nat)
deriving DecidableEq, Repr

/-- `Config` fields used by the sync loop. -/
structure Config where
  connected_devices_delay : Nat := 5
  no_connected_device_delay : Nat := 60
deriving DecidableEq, Repr

/-- The collaborators' behavior during one tick: the value returned by
each of the two desktop-clipboard reads, and each device's `Response` to
a push (`write_to_device`) and a pull (`read_from_device`). -/
structure TickEnv where
  clipRead1 : Str
  clipRead2 : Str
  pushResp : Str → Response
  pullResp : Str → Response

/-- `ClipboardSyncManager._handle_no_compatible_devices`: clear the
baseline and sleep the long delay (events emitted). -/
def handle_no_compatible_devices (cfg : Config) : List Event :=
  [Event.setBaseline none, Event.sleep cfg.no_connected_device_delay]

/-- `ClipboardSyncManager._sync_clipboard_to_devices`: returns whether a
push tick happened, the updated baseline, and the emitted events. -/
def sync_clipboard_to_devices (cfg : Config) (env : TickEnv)
    (baseline : Option Str) (devices : List Str) :
    Bool × Option Str × List Event :=
  let cur := env.clipRead1
  if baseline ≠ some cur ∧ cur ≠ [] then
    let pushes := devices.map (fun d => Event.pushTo d cur)
    let hasCompat := devices.any (fun d => (env.pushResp d).status = .SUCCESS)
    if hasCompat then
      (true, some cur, Event.setBaseline (some cur) :: pushes)
    else
      (true, none, Event.setBaseline (some cur) :: pushes ++
        handle_no_compatible_devices cfg)
  else (false, baseline, [])

/-- `ClipboardSyncManager._sync_clipboard_from_devices`'s device loop:
`hasCompat` accumulates whether some pull returned `SUCCESS`; the first
`SUCCESS` pull whose payload is non-empty and differs from `desktop`
writes the desktop clipboard, updates the baseline and stops. -/
def sync_from_devices_go (cfg : Config) (env : TickEnv)
    (baseline : Option Str) (desktop : Str) (hasCompat : Bool) :
    List Str → Bool × Option Str × List Event
  | [] =>
    if hasCompat then (false, baseline, [])
    else (false, none, handle_no_compatible_devices cfg)
  | d :: rest =>
    let r := env.pullResp d
    if r.status = .SUCCESS then
      if r.data ≠ [] ∧ r.data ≠ desktop then
        (true, some r.data,
          [Event.pullFrom d, Event.writeClip r.data,
           Event.setBaseline (some r.data)])
      else
        let (u, b, ev) := sync_from_devices_go cfg env baseline desktop true rest
        (u, b, Event.pullFrom d :: ev)
    else
      let (u, b, ev) :=
        sync_from_devices_go cfg env baseline desktop hasCompat rest
      (u, b, Event.pullFrom d :: ev)

/-- `ClipboardSyncManager._sync_clipboard_from_devices`. -/
def sync_clipboard_from_devices (cfg : Config) (env : TickEnv)
    (baseline : Option Str) (devices : List Str) :
    Bool × Option Str × List Event :=
  sync_from_devices_go cfg env baseline env.clipRead2 false devices

/-- One iteration of `ClipboardSyncManager.sync_with_devices`'s loop body,
given the device list the tick obtained: empty device list ⟹
`_handle_no_devices` (clear baseline, long sleep); otherwise the push
phase, then — only when it did not fire — the pull phase, then — only
when neither phase returned `True` — the short sleep. -/
def sync_tick (cfg : Config) (env : TickEnv) (devices : List Str)
    (baseline : Option Str) : Option Str × List Event :=
  if devices = [] then
    (none, [Event.setBaseline none, Event.sleep cfg.no_connected_device_delay])
  else
    match sync_clipboard_to_devices cfg env baseline devices with
    | (true, b, ev) => (b, ev)
    | (false, _, _) =>
      match sync_clipboard_from_devices cfg env baseline devices with
      | (true, b, ev) => (b, ev)
      | (false, b, ev) =>
        (b, ev ++ [Event.sleep cfg.connected_devices_delay])

/-- The pull condition of `_sync_clipboard_from_devices`: a `SUCCESS`
response whose payload is non-empty and differs from the desktop
clipboard (this is the response that triggers a desktop update). -/
def pullIsNew (desktop : Str) (r : Response) : Prop :=
  r.status = .SUCCESS ∧ r.data ≠ [] ∧ r.data ≠ desktop

/-- Newline-prefixed join: `joinNl [l1, l2] = '\n' :: l1 ++ '\n' :: l2`,
so that `header ++ joinNl lines` is a header line followed by the given
data lines (used to state the device-directory claim). -/
def joinNl : List Str → Str
  | [] => []
  | l :: rest => '\n' :: (l ++ joinNl rest)

/-- An `adb devices` data line: `handle ++ "\t" ++ status`. -/
def mkDeviceLine (p : Str × Str) : Str := p.1 ++ '\t' :: p.2

/-! ## Helper lemmas -/

/-- `pyStripRight` is Mathlib's `List.rdropWhile`. -/
theorem pyStripRight_eq (s : Str) : pyStripRight s = s.rdropWhile pyIsSpace := rfl

/-- A stripped string has no leading whitespace left to strip. -/
theorem dropWhile_pyStrip (s : Str) :
    (pyStrip s).dropWhile pyIsSpace = pyStrip s := by
  unfold pyStrip pyStripLeft
  rw [pyStripRight_eq]
  rcases hp : (s.dropWhile pyIsSpace).rdropWhile pyIsSpace with _ | ⟨c, t⟩
  · rfl
  · have hpre : (s.dropWhile pyIsSpace).rdropWhile pyIsSpace <+:
        s.dropWhile pyIsSpace := List.rdropWhile_prefix _ _
    rw [hp] at hpre
    obtain ⟨u, hu⟩ := hpre
    have hhead : (s.dropWhile pyIsSpace).head? = some c := by
      rw [← hu]; simp
    have h2 := List.head?_dropWhile_not pyIsSpace s
    rw [hhead] at h2
    have hc : pyIsSpace c = false := h2
    simp [List.dropWhile_cons, hc]

/-- Python `strip` is idempotent. -/
theorem pyStrip_idem (s : Str) : pyStrip (pyStrip s) = pyStrip s := by
  show pyStripRight ((pyStrip s).dropWhile pyIsSpace) = pyStrip s
  rw [dropWhile_pyStrip, pyStripRight_eq]
  show ((s.dropWhile pyIsSpace).rdropWhile pyIsSpace).rdropWhile pyIsSpace = _
  rw [List.rdropWhile_idempotent]
  rfl

/-- A string containing a non-empty pattern is non-empty. -/
theorem occurs_ne_nil {pat s : Str} (hp : pat ≠ []) (h : occurs pat s = true) :
    s ≠ [] := by
  intro hs
  subst hs
  simp [occurs, List.isEmpty_iff] at h
  exact hp h

/-! ## C5 — file-encoding pull error classification -/

/-- C5: `read_from_device` (file-encoding pull) returns NoData — status
SUCCESS with empty payload — exactly for a failed read whose stderr
contains `No such file or directory`; a command that could not be run at
all (`None` result) or failed with any other error returns Error. -/
theorem C5_pull_error_classification :
    ((read_from_device none).1 = ⟨.ERROR, []⟩) ∧
    (∀ r : CompletedProcess, r.returncode ≠ 0 →
      occurs noSuchFileStr r.stderr = true →
      (read_from_device (some r)).1 = ⟨.SUCCESS, []⟩) ∧
    (∀ r : CompletedProcess, r.returncode ≠ 0 →
      occurs noSuchFileStr r.stderr = false →
      (read_from_device (some r)).1 = ⟨.ERROR, []⟩) := by
  refine ⟨rfl, ?_, ?_⟩
  · intro r h1 h2
    have hne : r.stderr ≠ [] := occurs_ne_nil (by decide) h2
    simp [read_from_device, h1, hne, h2]
  · intro r h1 h2
    simp [read_from_device, h1, h2]

/-- Witness for C5 at concrete inputs: a `cat` failure with the
file-not-found stderr yields NoData, a permission failure yields Error. -/
theorem C5_witness :
    (read_from_device (some ⟨1, [],
        ("cat: /sdcard/x: No such file or directory").data⟩)).1 =
      ⟨.SUCCESS, []⟩ ∧
    (read_from_device (some ⟨1, [],
        ("cat: /sdcard/x: Permission denied").data⟩)).1 = ⟨.ERROR, []⟩ :=
  ⟨C5_pull_error_classification.2.1 _ (by decide) (by decide),
   C5_pull_error_classification.2.2 _ (by decide) (by decide)⟩

/-! ## C10 — pull payload stripping and cleanup condition -/

/-- C10: a `SUCCESS` payload of `read_from_device` carries no surrounding
whitespace (it is a fixed point of `strip`); a successful read of a
whitespace-only file yields `Success("")` with no cleanup, exactly like
NoData; and the cleanup `rm` is issued precisely when the response is
`SUCCESS` with a non-empty (stripped) payload. -/
theorem C10_strip_and_cleanup :
    (∀ res : Option CompletedProcess,
      (read_from_device res).1.status = .SUCCESS →
      pyStrip (read_from_device res).1.data = (read_from_device res).1.data) ∧
    (∀ r : CompletedProcess, r.returncode = 0 → pyStrip r.stdout = [] →
      read_from_device (some r) = (⟨.SUCCESS, []⟩, false)) ∧
    (∀ res : Option CompletedProcess,
      (read_from_device res).2 = true ↔
      ((read_from_device res).1.status = .SUCCESS ∧
        (read_from_device res).1.data ≠ [])) := by
  refine ⟨?_, ?_, ?_⟩
  · intro res hs
    match res with
    | none => simp [read_from_device] at hs
    | some r =>
      by_cases h1 : r.returncode ≠ 0 ∧ r.stderr ≠ [] ∧ occurs noSuchFileStr r.stderr
      · simp [read_from_device, h1]; rfl
      · by_cases h2 : r.returncode ≠ 0
        · have h3 : ¬ (r.stderr ≠ [] ∧ occurs noSuchFileStr r.stderr = true) :=
            fun hx => h1 ⟨h2, hx.1, hx.2⟩
          simp [read_from_device, h1, h2, h3] at hs
        · simp [read_from_device, h1, h2, pyStrip_idem]
  · intro r h0 hstrip
    have h1 : ¬ (r.returncode ≠ 0 ∧ r.stderr ≠ [] ∧ occurs noSuchFileStr r.stderr) := by
      simp [h0]
    simp [read_from_device, h1, h0, hstrip]
  · intro res
    match res with
    | none => simp [read_from_device]
    | some r =>
      by_cases h1 : r.returncode ≠ 0 ∧ r.stderr ≠ [] ∧ occurs noSuchFileStr r.stderr
      · simp [read_from_device, h1]
      · by_cases h2 : r.returncode ≠ 0
        · have h3 : ¬ (r.stderr ≠ [] ∧ occurs noSuchFileStr r.stderr = true) :=
            fun hx => h1 ⟨h2, hx.1, hx.2⟩
          simp [read_from_device, h1, h2, h3]
        · simp [read_from_device, h1, h2]

/-- Witness for C10 at concrete inputs: a file reading `"  hi \n"` yields
the stripped payload `"hi"` (with cleanup), a whitespace-only file yields
`Success("")` without cleanup. -/
theorem C10_witness :
    pyStrip (read_from_device (some ⟨0, ("  hi \n").data, []⟩)).1.data =
      (read_from_device (some ⟨0, ("  hi \n").data, []⟩)).1.data ∧
    read_from_device (some ⟨0, (" \n ").data, []⟩) = (⟨.SUCCESS, []⟩, false) ∧
    ((read_from_device (some ⟨0, ("  hi \n").data, []⟩)).2 = true ↔
      ((read_from_device (some ⟨0, ("  hi \n").data, []⟩)).1.status = .SUCCESS ∧
        (read_from_device (some ⟨0, ("  hi \n").data, []⟩)).1.data ≠ [])) :=
  ⟨C10_strip_and_cleanup.1 _ (by decide),
   C10_strip_and_cleanup.2.1 _ (by decide) (by decide),
   C10_strip_and_cleanup.2.2 _⟩

/-! ## Sync-loop tick lemmas -/

/-- The pull-phase loop emits no push events. -/
theorem go_no_push (cfg : Config) (env : TickEnv) (b : Option Str)
    (desk : Str) (ds : List Str) (hc : Bool) (d t : Str) :
    Event.pushTo d t ∉ (sync_from_devices_go cfg env b desk hc ds).2.2 := by
  induction ds generalizing hc with
  | nil =>
    by_cases h : hc <;>
      simp [sync_from_devices_go, h, handle_no_compatible_devices]
  | cons d0 rest ih =>
    by_cases hs : (env.pullResp d0).status = .SUCCESS
    · by_cases hn : (env.pullResp d0).data ≠ [] ∧ (env.pullResp d0).data ≠ desk
      · simp [sync_from_devices_go, hs, hn]
      · simp [sync_from_devices_go, hs, hn]
        exact ih true
    · simp [sync_from_devices_go, hs]
      exact ih hc

/-- The pull-phase loop emits no clipboard-write events when no pull
produces new data. -/
theorem go_no_write (cfg : Config) (env : TickEnv) (b : Option Str)
    (desk : Str) (ds : List Str) (hc : Bool)
    (h : ∀ d ∈ ds, ¬ pullIsNew desk (env.pullResp d)) (v : Str) :
    Event.writeClip v ∉ (sync_from_devices_go cfg env b desk hc ds).2.2 := by
  induction ds generalizing hc with
  | nil =>
    by_cases hb : hc <;>
      simp [sync_from_devices_go, hb, handle_no_compatible_devices]
  | cons d0 rest ih =>
    have h0 : ¬ pullIsNew desk (env.pullResp d0) := h d0 (by simp)
    have hrest : ∀ d ∈ rest, ¬ pullIsNew desk (env.pullResp d) :=
      fun d hd => h d (by simp [hd])
    by_cases hs : (env.pullResp d0).status = .SUCCESS
    · have hn : ¬ ((env.pullResp d0).data ≠ [] ∧ (env.pullResp d0).data ≠ desk) :=
        fun hx => h0 ⟨hs, hx⟩
      simp [sync_from_devices_go, hs, hn]
      exact ih true hrest
    · simp [sync_from_devices_go, hs]
      exact ih hc hrest

/-- When no pull produces new data but the tick is compatible (the
accumulator is already set or some device answers `SUCCESS`), the pull
phase visits every device, changes nothing, and reports no update. -/
theorem go_all_not_new (cfg : Config) (env : TickEnv) (b : Option Str)
    (desk : Str) (ds : List Str) (hc : Bool)
    (h : ∀ d ∈ ds, ¬ pullIsNew desk (env.pullResp d))
    (hcompat : hc = true ∨ ∃ d ∈ ds, (env.pullResp d).status = .SUCCESS) :
    sync_from_devices_go cfg env b desk hc ds =
      (false, b, ds.map Event.pullFrom) := by
  induction ds generalizing hc with
  | nil =>
    rcases hcompat with hb | ⟨d, hd, _⟩
    · subst hb; simp [sync_from_devices_go]
    · simp at hd
  | cons d0 rest ih =>
    have h0 : ¬ pullIsNew desk (env.pullResp d0) := h d0 (by simp)
    have hrest : ∀ d ∈ rest, ¬ pullIsNew desk (env.pullResp d) :=
      fun d hd => h d (by simp [hd])
    by_cases hs : (env.pullResp d0).status = .SUCCESS
    · have hn : ¬ ((env.pullResp d0).data ≠ [] ∧ (env.pullResp d0).data ≠ desk) :=
        fun hx => h0 ⟨hs, hx⟩
      simp only [sync_from_devices_go, if_pos hs, if_neg hn]
      rw [ih true hrest (Or.inl rfl)]
      simp
    · simp only [sync_from_devices_go, if_neg hs]
      have hcompat' : hc = true ∨ ∃ d ∈ rest, (env.pullResp d).status = .SUCCESS := by
        rcases hcompat with hb | ⟨d, hd, hds⟩
        · exact Or.inl hb
        · rcases List.mem_cons.mp hd with rfl | hd'
          · exact absurd hds hs
          · exact Or.inr ⟨d, hd', hds⟩
      rw [ih hc hrest hcompat']
      simp

/-- When every pull returns a non-`SUCCESS` status, the pull phase visits
every device, then clears the baseline and sleeps the long delay. -/
theorem go_all_error (cfg : Config) (env : TickEnv) (b : Option Str)
    (desk : Str) (ds : List Str)
    (h : ∀ d ∈ ds, (env.pullResp d).status ≠ .SUCCESS) :
    sync_from_devices_go cfg env b desk false ds =
      (false, none, ds.map Event.pullFrom ++ handle_no_compatible_devices cfg) := by
  induction ds with
  | nil => simp [sync_from_devices_go]
  | cons d0 rest ih =>
    have hs : ¬ (env.pullResp d0).status = .SUCCESS := h d0 (by simp)
    have hrest : ∀ d ∈ rest, (env.pullResp d).status ≠ .SUCCESS :=
      fun d hd => h d (by simp [hd])
    simp only [sync_from_devices_go, if_neg hs]
    rw [ih hrest]
    simp

/-- The first device (in list order) whose pull returns new data stops the
pull phase: earlier devices are visited, that device's payload is written
and becomes the baseline, and no later device is visited. -/
theorem go_first_new (cfg : Config) (env : TickEnv) (b : Option Str)
    (desk : Str) (ds1 : List Str) (d : Str) (ds2 : List Str) (hc : Bool)
    (h1 : ∀ d' ∈ ds1, ¬ pullIsNew desk (env.pullResp d'))
    (h : pullIsNew desk (env.pullResp d)) :
    sync_from_devices_go cfg env b desk hc (ds1 ++ d :: ds2) =
      (true, some (env.pullResp d).data,
        ds1.map Event.pullFrom ++
          [Event.pullFrom d, Event.writeClip (env.pullResp d).data,
           Event.setBaseline (some (env.pullResp d).data)]) := by
  induction ds1 generalizing hc with
  | nil =>
    obtain ⟨hs, hn⟩ := h
    simp only [List.nil_append, sync_from_devices_go, if_pos hs, if_pos hn]
    simp
  | cons d0 rest ih =>
    have h0 : ¬ pullIsNew desk (env.pullResp d0) := h1 d0 (by simp)
    have hrest : ∀ d' ∈ rest, ¬ pullIsNew desk (env.pullResp d') :=
      fun d' hd => h1 d' (by simp [hd])
    by_cases hs : (env.pullResp d0).status = .SUCCESS
    · have hn : ¬ ((env.pullResp d0).data ≠ [] ∧ (env.pullResp d0).data ≠ desk) :=
        fun hx => h0 ⟨hs, hx⟩
      simp only [List.cons_append, sync_from_devices_go, if_pos hs, if_neg hn,
        List.append_eq]
      rw [ih true hrest]
      simp
    · simp only [List.cons_append, sync_from_devices_go, if_neg hs,
        List.append_eq]
      rw [ih hc hrest]
      simp

/-- The pull phase never clears the baseline when it is compatible (the
accumulator is already set or some device answers `SUCCESS`). -/
theorem go_no_clear (cfg : Config) (env : TickEnv) (b : Option Str)
    (desk : Str) (ds : List Str) (hc : Bool)
    (hcompat : hc = true ∨ ∃ d ∈ ds, (env.pullResp d).status = .SUCCESS) :
    Event.setBaseline none ∉ (sync_from_devices_go cfg env b desk hc ds).2.2 := by
  induction ds generalizing hc with
  | nil =>
    rcases hcompat with hb | ⟨d, hd, _⟩
    · subst hb; simp [sync_from_devices_go]
    · simp at hd
  | cons d0 rest ih =>
    by_cases hs : (env.pullResp d0).status = .SUCCESS
    · by_cases hn : (env.pullResp d0).data ≠ [] ∧ (env.pullResp d0).data ≠ desk
      · simp [sync_from_devices_go, hs, hn]
      · simp [sync_from_devices_go, hs, hn]
        exact ih true (Or.inl rfl)
    · simp [sync_from_devices_go, hs]
      refine ih hc ?_
      rcases hcompat with hb | ⟨d, hd, hds⟩
      · exact Or.inl hb
      · rcases List.mem_cons.mp hd with rfl | hd'
        · exact absurd hds hs
        · exact Or.inr ⟨d, hd', hds⟩

/-- The push phase when the push condition holds and some device accepts
the push. -/
theorem to_devices_pos_compat (cfg : Config) (env : TickEnv)
    (baseline : Option Str) (devices : List Str)
    (hc : baseline ≠ some env.clipRead1 ∧ env.clipRead1 ≠ [])
    (hcompat : devices.any (fun d => (env.pushResp d).status = .SUCCESS) = true) :
    sync_clipboard_to_devices cfg env baseline devices =
      (true, some env.clipRead1,
        Event.setBaseline (some env.clipRead1) ::
          devices.map (fun d => Event.pushTo d env.clipRead1)) := by
  simp [sync_clipboard_to_devices, hc, hcompat]

/-- The push phase when the push condition holds and no device accepts
the push: the baseline is set, every device is pushed to, then the
baseline is cleared and the long delay slept. -/
theorem to_devices_pos_nocompat (cfg : Config) (env : TickEnv)
    (baseline : Option Str) (devices : List Str)
    (hc : baseline ≠ some env.clipRead1 ∧ env.clipRead1 ≠ [])
    (hcompat : devices.any (fun d => (env.pushResp d).status = .SUCCESS) = false) :
    sync_clipboard_to_devices cfg env baseline devices =
      (true, none,
        Event.setBaseline (some env.clipRead1) ::
          devices.map (fun d => Event.pushTo d env.clipRead1) ++
          handle_no_compatible_devices cfg) := by
  simp [sync_clipboard_to_devices, hc, hcompat]

/-- The push phase does nothing when the push condition fails. -/
theorem to_devices_neg (cfg : Config) (env : TickEnv)
    (baseline : Option Str) (devices : List Str)
    (hc : ¬ (baseline ≠ some env.clipRead1 ∧ env.clipRead1 ≠ [])) :
    sync_clipboard_to_devices cfg env baseline devices =
      (false, baseline, []) := by
  simp only [sync_clipboard_to_devices, if_neg hc]

/-! ## C9 — push postcondition -/

/-- Every non-exceptional result of `_parse_broadcast_response` is either
the default Error response or Success carrying the extracted data group
(empty when the data regex does not match). -/
theorem parse_broadcast_response_cases (s : Str) :
    parse_broadcast_response s = .error () ∨
    parse_broadcast_response s = .ok ⟨.ERROR, []⟩ ∨
    parse_broadcast_response s = .ok ⟨.SUCCESS, (dataGroup s).getD []⟩ := by
  unfold parse_broadcast_response
  rcases pySplit '\n' s with _ | ⟨l1, _ | ⟨l2, ls⟩⟩ <;> simp
  rcases lastOccSuffix resultPat l2 with _ | t <;> simp
  by_cases hg : grpAfter t = []
  · simp [hg]
  · simp [hg]
    rcases strToInt (grpAfter t) with _ | v <;> simp
    by_cases hv : v = -1 <;> simp [hv]

/-- C9, corrected: `write_to_device` (push) returns Success or Error; an
Error result always carries an empty data payload, and a non-empty
payload can occur only on Success, when the broadcast stdout itself
contains a trailing `data="<payload>"` field (the parser extracts it for
pushes exactly as for pulls).  For the companion app's write replies,
which carry no data field, the payload is therefore empty. -/
theorem C9_push_postcondition (text : Str) (res : Option CompletedProcess)
    (resp : Response) (h : write_to_device text res = .ok resp) :
    (resp.status = .ERROR → resp.data = []) ∧
    (resp.data ≠ [] → resp.status = .SUCCESS ∧
      ∃ r, res = some r ∧ dataGroup r.stdout = some resp.data) := by
  match res with
  | none =>
    simp [write_to_device] at h
    subst h
    simp
  | some r =>
    by_cases h0 : r.returncode ≠ 0
    · simp [write_to_device, h0] at h
      subst h
      simp
    · simp [write_to_device, h0] at h
      rcases parse_broadcast_response_cases r.stdout with hc | hc | hc
      · rw [hc] at h; simp at h
      · rw [hc] at h
        simp at h
        subst h
        simp
      · rw [hc] at h
        simp at h
        subst h
        refine ⟨by simp, fun hd => ⟨rfl, r, rfl, ?_⟩⟩
        rcases hdg : dataGroup r.stdout with _ | d
        · rw [hdg] at hd; simp at hd
        · simp

/-- Witness for C9 (corrected): applying the postcondition to a push whose
broadcast result is a plain `result=-1` completion. -/
theorem C9_witness :
    (Response.status ⟨.SUCCESS, []⟩ = .ERROR → Response.data ⟨.SUCCESS, []⟩ = []) ∧
    (Response.data ⟨.SUCCESS, []⟩ ≠ [] → Response.status ⟨.SUCCESS, []⟩ = .SUCCESS ∧
      ∃ r, (some ⟨0, ("Broadcasting: Intent \x7b flg=0x400000 \x7d\nBroadcast completed: result=-1").data, []⟩ :
          Option CompletedProcess) = some r ∧
        dataGroup r.stdout = some (Response.data ⟨.SUCCESS, []⟩)) :=
  C9_push_postcondition ['h', 'i']
    (some ⟨0, ("Broadcasting: Intent \x7b flg=0x400000 \x7d\nBroadcast completed: result=-1").data, []⟩)
    ⟨.SUCCESS, []⟩ (by decide)

/-- Counterexample to C9 as stated: when the broadcast stdout happens to
carry a `data="..."` field, the push returns Success with a NON-empty
data payload — `write_to_device` reuses `_parse_broadcast_response`,
which extracts the data field on every `result=-1` reply, so "the data
field of a push result is always the empty string" fails. -/
theorem C9_counterexample :
    write_to_device ['h', 'i']
      (some ⟨0, ("Broadcasting: Intent \x7b flg=0x400000 \x7d\nBroadcast completed: result=-1, data=\"oops\"").data, []⟩) =
    .ok ⟨.SUCCESS, ['o', 'o', 'p', 's']⟩ := by decide

/-! ## C2 — push-tick contract -/

/-- C2: with a non-empty device list, a push tick occurs iff the desktop
clipboard read differs from the baseline and is non-empty; on a push tick
the baseline is set to the new value before any push is issued and every
connected device is pushed to exactly once, with the new text, in device
order; an empty desktop clipboard never triggers a push. -/
theorem C2_push_tick_contract (cfg : Config) (env : TickEnv)
    (devices : List Str) (baseline : Option Str) (hdev : devices ≠ []) :
    ((∃ d t, Event.pushTo d t ∈ (sync_tick cfg env devices baseline).2) ↔
      (baseline ≠ some env.clipRead1 ∧ env.clipRead1 ≠ [])) ∧
    (baseline ≠ some env.clipRead1 ∧ env.clipRead1 ≠ [] →
      ∃ rest, (sync_tick cfg env devices baseline).2 =
        Event.setBaseline (some env.clipRead1) ::
          (devices.map (fun d => Event.pushTo d env.clipRead1) ++ rest) ∧
        ∀ d t, Event.pushTo d t ∉ rest) ∧
    (env.clipRead1 = [] →
      ∀ d t, Event.pushTo d t ∉ (sync_tick cfg env devices baseline).2) := by
  obtain ⟨d0, hd0⟩ := List.exists_mem_of_ne_nil devices hdev
  by_cases hc : baseline ≠ some env.clipRead1 ∧ env.clipRead1 ≠ []
  · cases hcompat : devices.any (fun d => (env.pushResp d).status = .SUCCESS) with
    | true =>
      have ht : sync_tick cfg env devices baseline =
          (some env.clipRead1,
           Event.setBaseline (some env.clipRead1) ::
             devices.map (fun d => Event.pushTo d env.clipRead1)) := by
        simp only [sync_tick, if_neg hdev,
          to_devices_pos_compat cfg env baseline devices hc hcompat]
      rw [ht]
      refine ⟨iff_of_true ⟨d0, env.clipRead1, ?_⟩ hc,
        fun _ => ⟨[], by simp, by simp⟩,
        fun h => absurd h hc.2⟩
      simp only [List.mem_cons, List.mem_map]
      exact Or.inr ⟨d0, hd0, rfl⟩
    | false =>
      have ht : sync_tick cfg env devices baseline =
          (none,
           Event.setBaseline (some env.clipRead1) ::
             devices.map (fun d => Event.pushTo d env.clipRead1) ++
             handle_no_compatible_devices cfg) := by
        simp only [sync_tick, if_neg hdev,
          to_devices_pos_nocompat cfg env baseline devices hc hcompat]
      rw [ht]
      refine ⟨iff_of_true ⟨d0, env.clipRead1, ?_⟩ hc,
        fun _ => ⟨handle_no_compatible_devices cfg, by simp, ?_⟩,
        fun h => absurd h hc.2⟩
      · simp only [List.cons_append, List.mem_cons, List.mem_append,
          List.mem_map]
        exact Or.inr (Or.inl ⟨d0, hd0, rfl⟩)
      · intro d t
        simp [handle_no_compatible_devices]
  · have ht0 := to_devices_neg cfg env baseline devices hc
    rcases hgo : sync_clipboard_from_devices cfg env baseline devices with
      ⟨u, b2, ev2⟩
    have hnp : ∀ d t, Event.pushTo d t ∉ ev2 := by
      intro d t hmem
      have h := go_no_push cfg env baseline env.clipRead2 devices false d t
      unfold sync_clipboard_from_devices at hgo
      rw [hgo] at h
      exact h hmem
    have hev : (sync_tick cfg env devices baseline).2 = ev2 ∨
        (sync_tick cfg env devices baseline).2 =
          ev2 ++ [Event.sleep cfg.connected_devices_delay] := by
      cases u with
      | true => exact Or.inl (by simp only [sync_tick, if_neg hdev, ht0, hgo])
      | false => exact Or.inr (by simp only [sync_tick, if_neg hdev, ht0, hgo])
    have hnp2 : ∀ d t, Event.pushTo d t ∉ (sync_tick cfg env devices baseline).2 := by
      intro d t hmem
      rcases hev with h | h <;> rw [h] at hmem
      · exact hnp d t hmem
      · rcases List.mem_append.mp hmem with h2 | h2
        · exact hnp d t h2
        · simp at h2
    exact ⟨iff_of_false (fun ⟨d, t, hm⟩ => hnp2 d t hm) hc,
      fun h => absurd h hc, fun _ => hnp2⟩

/-- Witness for C2: one device, baseline empty-string, clipboard now
`"h"` — the tick pushes once with `"h"` after setting the baseline. -/
theorem C2_witness :
    ∃ rest,
      (sync_tick {} ⟨['h'], ['h'],
          fun _ => ⟨.SUCCESS, []⟩, fun _ => ⟨.SUCCESS, []⟩⟩
        [['d']] (some [])).2 =
        Event.setBaseline (some ['h']) ::
          ([['d']].map (fun d => Event.pushTo d ['h']) ++ rest) ∧
      ∀ d t, Event.pushTo d t ∉ rest :=
  (C2_push_tick_contract {}
    ⟨['h'], ['h'], fun _ => ⟨.SUCCESS, []⟩, fun _ => ⟨.SUCCESS, []⟩⟩
    [['d']] (some []) (by decide)).2.1 ⟨by decide, by decide⟩

/-! ## C3 — pull-tick first-update rule -/

/-- C3: on a pull tick devices are pulled in device-list order; the first
device whose pull is `SUCCESS` with a non-empty payload differing from
the desktop content has its payload written to the desktop clipboard and
made the baseline, and no later device is pulled; when every pull yields
an empty or desktop-equal payload (and some pull succeeds), no clipboard
write happens and the baseline is unchanged. -/
theorem C3_pull_first_update (cfg : Config) (env : TickEnv)
    (devices : List Str) (baseline : Option Str)
    (hnopush : ¬ (baseline ≠ some env.clipRead1 ∧ env.clipRead1 ≠ [])) :
    (∀ ds1 d ds2, devices = ds1 ++ d :: ds2 →
      (∀ d' ∈ ds1, ¬ pullIsNew env.clipRead2 (env.pullResp d')) →
      pullIsNew env.clipRead2 (env.pullResp d) →
      sync_tick cfg env devices baseline =
        (some (env.pullResp d).data,
         ds1.map Event.pullFrom ++
           [Event.pullFrom d, Event.writeClip (env.pullResp d).data,
            Event.setBaseline (some (env.pullResp d).data)])) ∧
    ((∀ d ∈ devices, ¬ pullIsNew env.clipRead2 (env.pullResp d)) →
      (∃ d ∈ devices, (env.pullResp d).status = .SUCCESS) →
      (sync_tick cfg env devices baseline).1 = baseline ∧
      ∀ v, Event.writeClip v ∉ (sync_tick cfg env devices baseline).2) := by
  constructor
  · intro ds1 d ds2 hsplit hbefore hnew
    have hdev : devices ≠ [] := by
      rw [hsplit]; exact List.append_ne_nil_of_right_ne_nil _ (by simp)
    have hgo :
        sync_clipboard_from_devices cfg env baseline devices =
          (true, some (env.pullResp d).data,
           ds1.map Event.pullFrom ++
             [Event.pullFrom d, Event.writeClip (env.pullResp d).data,
              Event.setBaseline (some (env.pullResp d).data)]) := by
      unfold sync_clipboard_from_devices
      rw [hsplit]
      exact go_first_new cfg env baseline env.clipRead2 ds1 d ds2 false
        hbefore hnew
    simp only [sync_tick, if_neg hdev, to_devices_neg cfg env baseline devices hnopush,
      hgo]
  · intro hnotnew hex
    obtain ⟨d0, hd0, hs0⟩ := hex
    have hdev : devices ≠ [] := List.ne_nil_of_mem hd0
    have hgo :
        sync_clipboard_from_devices cfg env baseline devices =
          (false, baseline, devices.map Event.pullFrom) := by
      unfold sync_clipboard_from_devices
      exact go_all_not_new cfg env baseline env.clipRead2 devices false
        hnotnew (Or.inr ⟨d0, hd0, hs0⟩)
    have ht : sync_tick cfg env devices baseline =
        (baseline, devices.map Event.pullFrom ++
          [Event.sleep cfg.connected_devices_delay]) := by
      simp only [sync_tick, if_neg hdev,
        to_devices_neg cfg env baseline devices hnopush, hgo]
    rw [ht]
    refine ⟨rfl, fun v hmem => ?_⟩
    rcases List.mem_append.mp hmem with h | h
    · rcases List.mem_map.mp h with ⟨x, _, hx⟩
      exact Event.noConfusion hx
    · simp at h

/-- Witness for C3: two devices, the first pulls `"world"` while the
desktop holds `"abc"` — the tick writes `"world"`, sets the baseline and
never visits the second device. -/
theorem C3_witness :
    sync_tick {} ⟨['a'], ['a'], fun _ => ⟨.SUCCESS, []⟩,
        fun _ => ⟨.SUCCESS, ['w']⟩⟩
      [['1'], ['2']] (some ['a']) =
      (some ['w'],
       ([] : List Str).map Event.pullFrom ++
         [Event.pullFrom ['1'], Event.writeClip ['w'],
          Event.setBaseline (some ['w'])]) :=
  (C3_pull_first_update {}
    ⟨['a'], ['a'], fun _ => ⟨.SUCCESS, []⟩, fun _ => ⟨.SUCCESS, ['w']⟩⟩
    [['1'], ['2']] (some ['a']) (by decide)).1
    [] ['1'] [['2']] rfl (by simp) ⟨rfl, by decide, by decide⟩

/-! ## C4 — no-compatible-device invariant -/

/-- C4: in a tick with connected devices, a device is compatible exactly
when it answered with status `SUCCESS` at least once (at protocol level
both Success and NoData are carried as `SUCCESS`; an Error-only device
does not count).  When no device is compatible — push tick with zero
successful pushes, or pull tick where every pull errors — the baseline
is cleared and the long `no_connected_device_delay` is slept; when some
device is compatible the baseline is never cleared. -/
theorem C4_no_compatible_devices (cfg : Config) (env : TickEnv)
    (devices : List Str) (baseline : Option Str) (hdev : devices ≠ []) :
    ((baseline ≠ some env.clipRead1 ∧ env.clipRead1 ≠ []) →
      (∀ d ∈ devices, (env.pushResp d).status ≠ .SUCCESS) →
      sync_tick cfg env devices baseline =
        (none, Event.setBaseline (some env.clipRead1) ::
          devices.map (fun d => Event.pushTo d env.clipRead1) ++
          [Event.setBaseline none,
           Event.sleep cfg.no_connected_device_delay])) ∧
    ((baseline ≠ some env.clipRead1 ∧ env.clipRead1 ≠ []) →
      (∃ d ∈ devices, (env.pushResp d).status = .SUCCESS) →
      sync_tick cfg env devices baseline =
        (some env.clipRead1, Event.setBaseline (some env.clipRead1) ::
          devices.map (fun d => Event.pushTo d env.clipRead1))) ∧
    (¬ (baseline ≠ some env.clipRead1 ∧ env.clipRead1 ≠ []) →
      (∀ d ∈ devices, (env.pullResp d).status ≠ .SUCCESS) →
      sync_tick cfg env devices baseline =
        (none, devices.map Event.pullFrom ++
          [Event.setBaseline none, Event.sleep cfg.no_connected_device_delay,
           Event.sleep cfg.connected_devices_delay])) ∧
    (¬ (baseline ≠ some env.clipRead1 ∧ env.clipRead1 ≠ []) →
      (∃ d ∈ devices, (env.pullResp d).status = .SUCCESS) →
      Event.setBaseline none ∉ (sync_tick cfg env devices baseline).2) := by
  refine ⟨?_, ?_, ?_, ?_⟩
  · intro hc hall
    have hcompat : devices.any (fun d => (env.pushResp d).status = .SUCCESS) = false := by
      cases hb : devices.any (fun d => (env.pushResp d).status = .SUCCESS) with
      | false => rfl
      | true =>
        rw [List.any_eq_true] at hb
        obtain ⟨d, hd, hs⟩ := hb
        simp only [decide_eq_true_eq] at hs
        exact absurd hs (hall d hd)
    simp only [sync_tick, if_neg hdev,
      to_devices_pos_nocompat cfg env baseline devices hc hcompat,
      handle_no_compatible_devices]
  · intro hc hex
    have hcompat : devices.any (fun d => (env.pushResp d).status = .SUCCESS) = true := by
      rw [List.any_eq_true]
      obtain ⟨d, hd, hs⟩ := hex
      exact ⟨d, hd, by simp [hs]⟩
    simp only [sync_tick, if_neg hdev,
      to_devices_pos_compat cfg env baseline devices hc hcompat]
  · intro hc hall
    have hgo :
        sync_clipboard_from_devices cfg env baseline devices =
          (false, none, devices.map Event.pullFrom ++
            handle_no_compatible_devices cfg) := by
      unfold sync_clipboard_from_devices
      exact go_all_error cfg env baseline env.clipRead2 devices hall
    simp only [sync_tick, if_neg hdev,
      to_devices_neg cfg env baseline devices hc, hgo,
      handle_no_compatible_devices]
    simp
  · intro hc hex
    rcases hgo : sync_clipboard_from_devices cfg env baseline devices with
      ⟨u, b2, ev2⟩
    have hnc : Event.setBaseline none ∉ ev2 := by
      have h := go_no_clear cfg env baseline env.clipRead2 devices false
        (Or.inr hex)
      unfold sync_clipboard_from_devices at hgo
      rw [hgo] at h
      exact h
    cases u with
    | true =>
      simp only [sync_tick, if_neg hdev,
        to_devices_neg cfg env baseline devices hc, hgo]
      exact hnc
    | false =>
      simp only [sync_tick, if_neg hdev,
        to_devices_neg cfg env baseline devices hc, hgo]
      intro hmem
      rcases List.mem_append.mp hmem with h | h
      · exact hnc h
      · simp at h

/-- Witness for C4 at scenario D: one device, pull errors — baseline
cleared, long delay slept (then the loop's unconditional short sleep). -/
theorem C4_witness :
    sync_tick {} ⟨['a'], ['a'], fun _ => ⟨.ERROR, []⟩, fun _ => ⟨.ERROR, []⟩⟩
      [['1']] (some ['a']) =
      (none, [['1']].map Event.pullFrom ++
        [Event.setBaseline none, Event.sleep (60 : Nat),
         Event.sleep (5 : Nat)]) :=
  (C4_no_compatible_devices {}
    ⟨['a'], ['a'], fun _ => ⟨.ERROR, []⟩, fun _ => ⟨.ERROR, []⟩⟩
    [['1']] (some ['a']) (by decide)).2.2.1 (by decide) (by decide)

/-! ## C8 — sync-loop idempotence -/

/-- C8: a tick with devices connected, a desktop read equal to the
baseline (or empty), and every pull returning `SUCCESS` with an empty or
desktop-equal payload performs no push and no clipboard write, leaves the
baseline unchanged, and sleeps the short `connected_devices_delay`: the
tick reduces to the pull visits followed by the short sleep. -/
theorem C8_idempotent_tick (cfg : Config) (env : TickEnv)
    (devices : List Str) (baseline : Option Str) (hdev : devices ≠ [])
    (hread : some env.clipRead1 = baseline ∨ env.clipRead1 = [])
    (hpull : ∀ d ∈ devices, (env.pullResp d).status = .SUCCESS ∧
      ((env.pullResp d).data = [] ∨ (env.pullResp d).data = env.clipRead2)) :
    sync_tick cfg env devices baseline =
      (baseline, devices.map Event.pullFrom ++
        [Event.sleep cfg.connected_devices_delay]) := by
  have hc : ¬ (baseline ≠ some env.clipRead1 ∧ env.clipRead1 ≠ []) := by
    rcases hread with h | h
    · intro hx; exact hx.1 h.symm
    · intro hx; exact hx.2 h
  obtain ⟨d0, hd0⟩ := List.exists_mem_of_ne_nil devices hdev
  have hnotnew : ∀ d ∈ devices, ¬ pullIsNew env.clipRead2 (env.pullResp d) := by
    intro d hd
    rcases hpull d hd with ⟨_, he⟩
    rintro ⟨_, hne, hneq⟩
    rcases he with h | h
    · exact hne h
    · exact hneq h
  have hgo :
      sync_clipboard_from_devices cfg env baseline devices =
        (false, baseline, devices.map Event.pullFrom) := by
    unfold sync_clipboard_from_devices
    exact go_all_not_new cfg env baseline env.clipRead2 devices false
      hnotnew (Or.inr ⟨d0, hd0, (hpull d0 hd0).1⟩)
  simp only [sync_tick, if_neg hdev,
    to_devices_neg cfg env baseline devices hc, hgo]

/-- Witness for C8: one device, desktop equal to baseline, pull returns
the same content — the tick only pulls and sleeps the short delay. -/
theorem C8_witness :
    sync_tick {} ⟨['a'], ['a'], fun _ => ⟨.SUCCESS, []⟩,
        fun _ => ⟨.SUCCESS, ['a']⟩⟩
      [['1']] (some ['a']) =
      (some ['a'], [['1']].map Event.pullFrom ++ [Event.sleep (5 : Nat)]) :=
  C8_idempotent_tick {}
    ⟨['a'], ['a'], fun _ => ⟨.SUCCESS, []⟩, fun _ => ⟨.SUCCESS, ['a']⟩⟩
    [['1']] (some ['a']) (by decide) (by decide) (by decide)

/-! ## C6 — device-directory parsing -/

/-- `pySplit` of a separator-free string is that string alone. -/
theorem pySplit_no_sep (sep : Char) (l : Str) (h : ∀ c ∈ l, c ≠ sep) :
    pySplit sep l = [l] := by
  induction l with
  | nil => rfl
  | cons c rest ih =>
    have hc : c ≠ sep := h c (by simp)
    have hrest : ∀ c ∈ rest, c ≠ sep := fun c hm => h c (by simp [hm])
    simp only [pySplit, if_neg hc, ih hrest]

/-- `pySplit` peels a separator-free prefix up to the first separator. -/
theorem pySplit_append_cons (sep : Char) (l r : Str)
    (h : ∀ c ∈ l, c ≠ sep) :
    pySplit sep (l ++ sep :: r) = l :: pySplit sep r := by
  induction l with
  | nil => simp [pySplit]
  | cons c rest ih =>
    have hc : c ≠ sep := h c (by simp)
    have hrest : ∀ c ∈ rest, c ≠ sep := fun c hm => h c (by simp [hm])
    rw [List.cons_append]
    simp only [pySplit, if_neg hc, ih hrest]

/-- Splitting a header followed by newline-joined lines recovers exactly
the header and the lines. -/
theorem pySplit_joinNl (h : Str) (ls : List Str)
    (hh : ∀ c ∈ h, c ≠ '\n') (hls : ∀ l ∈ ls, ∀ c ∈ l, c ≠ '\n') :
    pySplit '\n' (h ++ joinNl ls) = h :: ls := by
  induction ls generalizing h with
  | nil => simp only [joinNl, List.append_nil, pySplit_no_sep '\n' h hh]
  | cons l rest ih =>
    have h1 : ∀ c ∈ l, c ≠ '\n' := hls l (by simp)
    have h2 : ∀ l' ∈ rest, ∀ c ∈ l', c ≠ '\n' :=
      fun l' hm => hls l' (by simp [hm])
    show pySplit '\n' (h ++ '\n' :: (l ++ joinNl rest)) = h :: l :: rest
    rw [pySplit_append_cons '\n' h _ hh, ih l h1 h2]

/-- `joinNl` distributes over list concatenation. -/
theorem joinNl_append (xs ys : List Str) :
    joinNl (xs ++ ys) = joinNl xs ++ joinNl ys := by
  induction xs with
  | nil => simp [joinNl]
  | cons l rest ih => simp [joinNl, ih]

/-- A left-strip over a prefix containing a non-space character keeps the
rest of the string intact. -/
theorem pyStripLeft_append (xs ys : Str) (h : ∃ c ∈ xs, ¬ pyIsSpace c) :
    pyStripLeft (xs ++ ys) = pyStripLeft xs ++ ys := by
  unfold pyStripLeft
  rw [List.dropWhile_append]
  have hne : xs.dropWhile pyIsSpace ≠ [] := by
    rw [Ne, List.dropWhile_eq_nil_iff]
    intro hall
    obtain ⟨c, hc, hcs⟩ := h
    exact hcs (hall c hc)
  simp [List.isEmpty_iff, hne]

/-- A right-strip leaves a string ending in a non-space suffix intact. -/
theorem pyStripRight_append (a b : Str) (hb : b ≠ [])
    (hball : ∀ c ∈ b, ¬ pyIsSpace c) :
    pyStripRight (a ++ b) = a ++ b := by
  rcases List.eq_nil_or_concat b with rfl | ⟨b0, c, rfl⟩
  · exact absurd rfl hb
  · have hc : ¬ pyIsSpace c = true := hball c (by simp)
    rw [pyStripRight_eq, List.concat_eq_append, ← List.append_assoc,
      List.rdropWhile_concat_neg pyIsSpace (a ++ b0) c hc]

/-- A string containing a non-space character strips to a non-empty
string. -/
theorem pyStrip_ne_nil (l : Str) (h : ∃ c ∈ l, ¬ pyIsSpace c) :
    pyStrip l ≠ [] := by
  obtain ⟨c, hc, hcs⟩ := h
  have hcl : c ∈ l.dropWhile pyIsSpace := by
    rcases List.mem_append.mp
      ((List.takeWhile_append_dropWhile pyIsSpace l) ▸ hc) with h1 | h1
    · exact absurd (List.mem_takeWhile_imp h1) hcs
    · exact h1
  unfold pyStrip pyStripLeft
  rw [pyStripRight_eq, Ne, List.rdropWhile_eq_nil_iff]
  intro hall
  exact hcs (hall c hcl)

/-- Single-character containment: `occurs [c]` is membership. -/
theorem occurs_singleton_of_mem (c : Char) (s : Str) (h : c ∈ s) :
    occurs [c] s = true := by
  induction s with
  | nil => simp at h
  | cons c0 rest ih =>
    rcases List.mem_cons.mp h with rfl | h1
    · simp [occurs, List.isPrefixOf]
    · simp only [occurs, Bool.or_eq_true]
      exact Or.inr (ih h1)

/-- `deviceOfLine` on a well-formed `handle ++ "\t" ++ status` line keeps
the handle exactly when the status is the literal `device`. -/
theorem deviceOfLine_mk (a b : Str)
    (ha : ∀ c ∈ a, c ≠ '\t')
    (hb : b ≠ []) (hball : ∀ c ∈ b, ¬ pyIsSpace c ∧ c ≠ '\t') :
    deviceOfLine (a ++ '\t' :: b) =
      if b = deviceStr then some a else none := by
  obtain ⟨c0, hc0⟩ := List.exists_mem_of_ne_nil b hb
  have hstrip : pyStrip (a ++ '\t' :: b) ≠ [] :=
    pyStrip_ne_nil _ ⟨c0, by simp [hc0], (hball c0 hc0).1⟩
  have hocc : occurs ['\t'] (a ++ '\t' :: b) = true :=
    occurs_singleton_of_mem '\t' _ (by simp)
  have hsplit : pySplit '\t' (a ++ '\t' :: b) = [a, b] := by
    rw [pySplit_append_cons '\t' a _ ha,
      pySplit_no_sep '\t' b (fun c hm => (hball c hm).2)]
  simp only [deviceOfLine, hsplit]
  rw [if_pos ⟨hstrip, hocc⟩]

/-- The device-directory loop over well-formed lines filters by status
`device` and maps to handles, preserving order. -/
theorem filterMap_deviceOfLine (pairs : List (Str × Str))
    (hp : ∀ p ∈ pairs, (∀ c ∈ p.1, c ≠ '\t') ∧ p.2 ≠ [] ∧
      (∀ c ∈ p.2, ¬ pyIsSpace c ∧ c ≠ '\t')) :
    (pairs.map mkDeviceLine).filterMap deviceOfLine =
      (pairs.filter (fun p => p.2 = deviceStr)).map Prod.fst := by
  induction pairs with
  | nil => rfl
  | cons p rest ih =>
    obtain ⟨ha, hb, hball⟩ := hp p (by simp)
    have hrest : ∀ q ∈ rest, (∀ c ∈ q.1, c ≠ '\t') ∧ q.2 ≠ [] ∧
        (∀ c ∈ q.2, ¬ pyIsSpace c ∧ c ≠ '\t') :=
      fun q hm => hp q (by simp [hm])
    rcases p with ⟨a, b⟩
    simp only [List.map_cons, List.filterMap_cons, mkDeviceLine,
      deviceOfLine_mk a b ha hb hball]
    by_cases hdev : b = deviceStr
    · simp [hdev, List.filter_cons, ih hrest]
    · simp [hdev, List.filter_cons, ih hrest]

/-- Elements of a stripped string come from the original string. -/
theorem pyStrip_subset (l : Str) : pyStrip l ⊆ l := by
  intro c hc
  have h1 : pyStrip l ⊆ pyStripLeft l := by
    rw [show pyStrip l = (pyStripLeft l).rdropWhile pyIsSpace from rfl]
    exact (List.rdropWhile_prefix pyIsSpace (pyStripLeft l)).sublist.subset
  exact (List.dropWhile_sublist pyIsSpace).subset (h1 hc)

/-- Stripping a well-formed `adb devices` output (non-blank header, at
least one data line ending in a non-space status) only strips the
header's leading whitespace. -/
theorem pyStrip_devices_stdout (hh : Str) (pairs : List (Str × Str))
    (hne : pairs ≠ [])
    (hhead_sp : ∃ c ∈ hh, ¬ pyIsSpace c)
    (hstatus : ∀ p ∈ pairs, p.2 ≠ [] ∧ ∀ c ∈ p.2, ¬ pyIsSpace c) :
    pyStrip (hh ++ joinNl (pairs.map mkDeviceLine)) =
      pyStripLeft hh ++ joinNl (pairs.map mkDeviceLine) := by
  rcases List.eq_nil_or_concat pairs with rfl | ⟨init, pN, rfl⟩
  · exact absurd rfl hne
  · obtain ⟨hbN, hballN⟩ := hstatus pN (by simp)
    unfold pyStrip
    rw [pyStripLeft_append hh _ hhead_sp]
    have hform : pyStripLeft hh ++ joinNl ((init.concat pN).map mkDeviceLine) =
        (pyStripLeft hh ++ joinNl (init.map mkDeviceLine) ++
          ('\n' :: pN.1 ++ ['\t'])) ++ pN.2 := by
      rw [List.concat_eq_append, List.map_append, joinNl_append]
      simp [joinNl, mkDeviceLine, List.append_assoc]
    rw [hform, pyStripRight_append _ _ hbN hballN, ← hform]

/-- C6: well-formed device-list output — a header line (containing a
non-blank character when data lines follow) and `N` data lines of the
form `handle\tstatus` — parses to exactly the handles whose status is
the literal `device`, in order, with the header excluded unconditionally
(a header-only output gives `[]`); and any command failure (no result or
non-zero exit) gives `[]`. -/
theorem C6_device_directory (hh e : Str) (pairs : List (Str × Str))
    (hhead_nl : ∀ c ∈ hh, c ≠ '\n')
    (hhead_sp : pairs ≠ [] → ∃ c ∈ hh, ¬ pyIsSpace c)
    (hpairs : ∀ p ∈ pairs, (∀ c ∈ p.1, c ≠ '\t' ∧ c ≠ '\n') ∧ p.2 ≠ [] ∧
      ∀ c ∈ p.2, ¬ pyIsSpace c ∧ c ≠ '\t') :
    get_connected_devices (some ⟨0, hh ++ joinNl (pairs.map mkDeviceLine), e⟩) =
      (pairs.filter (fun p => p.2 = deviceStr)).map Prod.fst ∧
    get_connected_devices none = [] ∧
    (∀ r : CompletedProcess, r.returncode ≠ 0 →
      get_connected_devices (some r) = []) := by
  refine ⟨?_, rfl, fun r hr => by simp [get_connected_devices, hr]⟩
  have h0 : ¬ ((⟨0, hh ++ joinNl (pairs.map mkDeviceLine), e⟩ :
      CompletedProcess).returncode ≠ 0) := by simp
  simp only [get_connected_devices, if_neg h0]
  by_cases hne : pairs = []
  · subst hne
    show ((pySplit '\n' (pyStrip (hh ++ joinNl []))).drop 1).filterMap
      deviceOfLine = _
    rw [show joinNl [] = [] from rfl, List.append_nil]
    rw [pySplit_no_sep '\n' (pyStrip hh)
      (fun c hc => hhead_nl c (pyStrip_subset hh hc))]
    rfl
  · rw [pyStrip_devices_stdout hh pairs hne (hhead_sp hne)
      (fun p hm => ⟨(hpairs p hm).2.1, fun c hc => ((hpairs p hm).2.2 c hc).1⟩)]
    rw [pySplit_joinNl (pyStripLeft hh) _
      (fun c hc => hhead_nl c ((List.dropWhile_sublist pyIsSpace).subset hc))
      ?lines]
    case lines =>
      intro l hl c hc
      obtain ⟨p, hpm, rfl⟩ := List.mem_map.mp hl
      have hc' : c ∈ p.1 ∨ c = '\t' ∨ c ∈ p.2 := by
        simpa [mkDeviceLine] using hc
      rcases hc' with h1 | rfl | h1
      · exact ((hpairs p hpm).1 c h1).2
      · decide
      · intro hceq
        subst hceq
        exact ((hpairs p hpm).2.2 _ h1).1 (by decide)
    rw [List.drop_one, List.tail_cons]
    exact filterMap_deviceOfLine pairs
      (fun p hm => ⟨fun c hc => ((hpairs p hm).1 c hc).1,
        (hpairs p hm).2.1, (hpairs p hm).2.2⟩)

/-- Witness for C6 at a concrete device listing with statuses `device`,
`offline`, `device`. -/
theorem C6_witness :
    get_connected_devices (some ⟨0,
      ("List of devices attached").data ++
        joinNl ([((("a1").data, ("device").data) : Str × Str),
          (("b2").data, ("offline").data),
          (("c3").data, ("device").data)].map mkDeviceLine), []⟩) =
      ([((("a1").data, ("device").data) : Str × Str),
          (("b2").data, ("offline").data),
          (("c3").data, ("device").data)].filter
        (fun p => p.2 = deviceStr)).map Prod.fst ∧
    get_connected_devices none = [] ∧
    (∀ r : CompletedProcess, r.returncode ≠ 0 →
      get_connected_devices (some r) = []) :=
  C6_device_directory ("List of devices attached").data [] _
    (by decide) (fun _ => by decide) (by decide)

/-! ## C1 — broadcast-response parsing

Lemma stack characterizing `lastOccSuffix`, `lastOccSuffixNl`,
`grpAfter`, `strToInt` and `dataCore` on decomposed inputs, leading to
the corrected parsing theorem. -/

/-- A pattern headed by `p0` cannot be a prefix of a string headed by a
different character. -/
theorem isPrefixOf_head_ne {p0 c : Char} (p' x : Str) (h : p0 ≠ c) :
    (p0 :: p').isPrefixOf (c :: x) = false := by
  rw [List.isPrefixOf_cons₂]
  simp [h]

/-- A pattern occurs nowhere in `a ++ tail` when it occurs nowhere in
`tail` and fails as a prefix at every start position inside `a`. -/
theorem occurs_eq_false_of_drops (pat a tail : Str)
    (h0 : ∀ k, k < a.length → pat.isPrefixOf (a.drop k ++ tail) = false)
    (htail : occurs pat tail = false) :
    occurs pat (a ++ tail) = false := by
  induction a with
  | nil => simpa using htail
  | cons c a' ih =>
    show occurs pat (c :: (a' ++ tail)) = false
    simp only [occurs, Bool.or_eq_false_iff]
    refine ⟨?_, ih fun k hk => ?_⟩
    · simpa using h0 0 (by simp)
    · simpa using h0 (k + 1) (by simpa using Nat.succ_lt_succ hk)

/-- A pattern headed by `p0` occurs nowhere in `a ++ tail` when no
character of `a` is `p0` and it occurs nowhere in `tail`. -/
theorem occurs_append_of_ne_head (p0 : Char) (p' a tail : Str)
    (ha : ∀ c ∈ a, c ≠ p0) (htail : occurs (p0 :: p') tail = false) :
    occurs (p0 :: p') (a ++ tail) = false := by
  induction a with
  | nil => simpa using htail
  | cons c a' ih =>
    have hc : c ≠ p0 := ha c (by simp)
    have ha' : ∀ c ∈ a', c ≠ p0 := fun c hm => ha c (by simp [hm])
    show occurs (p0 :: p') (c :: (a' ++ tail)) = false
    simp only [occurs, Bool.or_eq_false_iff]
    exact ⟨isPrefixOf_head_ne p' _ (Ne.symm hc), ih ha'⟩

/-- `lastOccSuffix` finds nothing in a string without occurrences. -/
theorem lastOccSuffix_of_no_occ (pat s : Str) (hp : pat ≠ [])
    (h : occurs pat s = false) : lastOccSuffix pat s = none := by
  induction s with
  | nil => simp [lastOccSuffix, List.isEmpty_iff, hp]
  | cons c rest ih =>
    simp only [occurs, Bool.or_eq_false_iff] at h
    simp only [lastOccSuffix, ih h.2, h.1]
    simp

/-- The self-overlap exclusion needed below: the pattern does not occur
inside its own tail followed by `tail`. -/
theorem occurs_pat_tail (p0 : Char) (p' tail : Str)
    (htail : occurs (p0 :: p') tail = false)
    (hstraddle : ∀ k, 0 < k → k < (p0 :: p').length →
      (p0 :: p').isPrefixOf ((p0 :: p').drop k ++ tail) = false) :
    occurs (p0 :: p') (p' ++ tail) = false := by
  apply occurs_eq_false_of_drops _ _ _ _ htail
  intro k hk
  have h1 := hstraddle (k + 1) (by omega) (by simp; omega)
  simpa using h1

/-- `lastOccSuffix` on `pre ++ pat ++ tail`, when `pat` has no later
occurrence, returns the suffix after the exhibited occurrence. -/
theorem lastOccSuffix_append (p0 : Char) (p' tail : Str) (pre : Str)
    (htail : occurs (p0 :: p') tail = false)
    (hstraddle : ∀ k, 0 < k → k < (p0 :: p').length →
      (p0 :: p').isPrefixOf ((p0 :: p').drop k ++ tail) = false) :
    lastOccSuffix (p0 :: p') (pre ++ (p0 :: p') ++ tail) = some tail := by
  induction pre with
  | nil =>
    have hocc := occurs_pat_tail p0 p' tail htail hstraddle
    show lastOccSuffix (p0 :: p') (p0 :: (p' ++ tail)) = some tail
    simp only [lastOccSuffix, lastOccSuffix_of_no_occ _ _ (by simp) hocc]
    have hpre : (p0 :: p').isPrefixOf (p0 :: (p' ++ tail)) = true := by
      rw [List.isPrefixOf_iff_prefix]
      exact ⟨tail, by simp⟩
    rw [if_pos hpre]
    congr 1
    show ((p0 :: p') ++ tail).drop (p0 :: p').length = tail
    exact List.drop_left _ _
  | cons c pre' ih =>
    show lastOccSuffix (p0 :: p') (c :: (pre' ++ (p0 :: p') ++ tail)) = some tail
    simp only [lastOccSuffix, ih]

/-- `lastOccSuffixNl` finds nothing in a string without occurrences. -/
theorem lastOccSuffixNl_of_no_occ (pat s : Str)
    (h : occurs pat s = false) :
    ∀ seen, lastOccSuffixNl pat seen s = none := by
  induction s with
  | nil => intro seen; rfl
  | cons c rest ih =>
    intro seen
    simp only [occurs, Bool.or_eq_false_iff] at h
    simp only [lastOccSuffixNl, ih h.2, h.1]
    simp

/-- `lastOccSuffixNl` on `u ++ pat ++ tail` with a newline already seen
or present in `u`, and no later occurrence of `pat`, returns the suffix
after the exhibited occurrence. -/
theorem lastOccSuffixNl_append (p0 : Char) (p' tail u : Str) (seen : Bool)
    (hseen : seen = true ∨ '\n' ∈ u)
    (htail : occurs (p0 :: p') tail = false)
    (hstraddle : ∀ k, 0 < k → k < (p0 :: p').length →
      (p0 :: p').isPrefixOf ((p0 :: p').drop k ++ tail) = false) :
    lastOccSuffixNl (p0 :: p') seen (u ++ (p0 :: p') ++ tail) = some tail := by
  induction u generalizing seen with
  | nil =>
    have hs : seen = true := by
      rcases hseen with h | h
      · exact h
      · simp at h
    subst hs
    have hocc := occurs_pat_tail p0 p' tail htail hstraddle
    show lastOccSuffixNl (p0 :: p') true (p0 :: (p' ++ tail)) = some tail
    simp only [lastOccSuffixNl, lastOccSuffixNl_of_no_occ _ _ hocc]
    have hpre : (p0 :: p').isPrefixOf (p0 :: (p' ++ tail)) = true := by
      rw [List.isPrefixOf_iff_prefix]
      exact ⟨tail, by simp⟩
    rw [if_pos ⟨trivial, hpre⟩]
    congr 1
    show ((p0 :: p') ++ tail).drop (p0 :: p').length = tail
    exact List.drop_left _ _
  | cons c u' ih =>
    have hseen' : (seen || c = '\n') = true ∨ '\n' ∈ u' := by
      rcases hseen with h | h
      · left; simp [h]
      · rcases List.mem_cons.mp h with hc | h1
        · left; simp [← hc]
        · right; exact h1
    show lastOccSuffixNl (p0 :: p') seen (c :: (u' ++ (p0 :: p') ++ tail)) =
      some tail
    simp only [lastOccSuffixNl, ih _ hseen']

/-- The digit run at the head of `ds ++ post` is exactly `ds` when `ds`
is all digits and `post` does not start with one. -/
theorem takeWhile_digits_append (ds post : Str)
    (hds : ∀ c ∈ ds, c.isDigit = true)
    (hpost : ∀ c, post.head? = some c → ¬ c.isDigit = true) :
    (ds ++ post).takeWhile Char.isDigit = ds := by
  rw [List.takeWhile_append_of_pos hds]
  rcases post with _ | ⟨c, post'⟩
  · simp
  · have hc := hpost c rfl
    simp [List.takeWhile_cons, hc]

/-- Characters of a parsable integer group are a minus sign or digits. -/
theorem intText_chars (g : Str) (h : isIntText g) :
    ∀ c ∈ g, c = '-' ∨ c.isDigit = true := by
  rcases h with ⟨ds, rfl, _, hds⟩ | ⟨_, hds⟩
  · intro c hc
    rcases List.mem_cons.mp hc with rfl | h1
    · exact Or.inl rfl
    · exact Or.inr (hds c h1)
  · exact fun c hc => Or.inr (hds c hc)

/-- A parsable integer group is non-empty. -/
theorem intText_ne_nil (g : Str) (h : isIntText g) : g ≠ [] := by
  rcases h with ⟨ds, rfl, _, _⟩ | ⟨hne, _⟩
  · simp
  · exact hne

/-- The `([-]?\d*)` group matched at the head of `numStr ++ post` is
exactly `numStr` when `numStr` is a parsable integer and `post` does not
begin with a digit. -/
theorem grpAfter_append_intText (numStr post : Str) (h : isIntText numStr)
    (hpost : ∀ c, post.head? = some c → ¬ c.isDigit = true) :
    grpAfter (numStr ++ post) = numStr := by
  rcases h with ⟨ds, rfl, _, hds⟩ | ⟨hne, hds⟩
  · show grpAfter ('-' :: (ds ++ post)) = '-' :: ds
    simp only [grpAfter, if_pos rfl]
    rw [takeWhile_digits_append ds post hds hpost]
    simp
  · rcases numStr with _ | ⟨c, cs⟩
    · exact absurd rfl hne
    · have hc : c.isDigit = true := hds c (by simp)
      have hcm : c ≠ '-' := by
        intro hx
        rw [hx] at hc
        exact absurd hc (by decide)
      show grpAfter (c :: (cs ++ post)) = c :: cs
      simp only [grpAfter, if_neg hcm]
      exact takeWhile_digits_append (c :: cs) post hds hpost

/-- A parsable integer group converts without a `ValueError`. -/
theorem strToInt_of_intText (g : Str) (h : isIntText g) :
    ∃ v, strToInt g = some v := by
  rcases h with ⟨ds, rfl, hne, hds⟩ | ⟨hne, hds⟩
  · refine ⟨-(Int.ofNat (natOfDigits ds)), ?_⟩
    simp only [strToInt, if_pos rfl]
    rw [if_pos (show ds ≠ [] ∧ ds.all Char.isDigit = true from
      ⟨hne, List.all_eq_true.mpr hds⟩)]
    simp
  · rcases g with _ | ⟨c, cs⟩
    · exact absurd rfl hne
    · have hc : c.isDigit = true := hds c (by simp)
      have hcm : c ≠ '-' := by
        intro hx
        rw [hx] at hc
        exact absurd hc (by decide)
      refine ⟨Int.ofNat (natOfDigits (c :: cs)), ?_⟩
      simp only [strToInt, if_neg hcm]
      rw [if_pos (List.all_eq_true.mpr hds)]

/-- Splitting a two-line-or-more string built as
`l1 ++ "\n" ++ l2 ++ rest` (with `rest` empty or newline-headed) yields
`l1` and `l2` as the first two lines. -/
theorem pySplit_two_lines (l1 l2 rest : Str)
    (h1 : ∀ c ∈ l1, c ≠ '\n') (h2 : ∀ c ∈ l2, c ≠ '\n')
    (hr : rest = [] ∨ ∃ r2, rest = '\n' :: r2) :
    ∃ ls, pySplit '\n' (l1 ++ '\n' :: (l2 ++ rest)) = l1 :: l2 :: ls := by
  rw [pySplit_append_cons '\n' l1 _ h1]
  rcases hr with rfl | ⟨r2, rfl⟩
  · rw [List.append_nil, pySplit_no_sep '\n' l2 h2]
    exact ⟨[], rfl⟩
  · rw [pySplit_append_cons '\n' l2 _ h2]
    exact ⟨_, rfl⟩

/-- No start position strictly inside `result=` restarts a `result=`
match (the pattern does not overlap itself). -/
theorem resultPat_straddle (tail : Str) :
    ∀ k, 0 < k → k < resultPat.length →
      resultPat.isPrefixOf (resultPat.drop k ++ tail) = false := by
  intro k hk0 hk
  have hk7 : k < 7 := by simpa [resultPat] using hk
  clear hk
  interval_cases k
  · exact isPrefixOf_head_ne _ _ (by decide)
  · exact isPrefixOf_head_ne _ _ (by decide)
  · exact isPrefixOf_head_ne _ _ (by decide)
  · exact isPrefixOf_head_ne _ _ (by decide)
  · exact isPrefixOf_head_ne _ _ (by decide)
  · exact isPrefixOf_head_ne _ _ (by decide)

/-- No start position strictly inside `data="` restarts a `data="`
match (the pattern does not overlap itself). -/
theorem dataPat_straddle (tail : Str) :
    ∀ k, 0 < k → k < dataPat.length →
      dataPat.isPrefixOf (dataPat.drop k ++ tail) = false := by
  intro k hk0 hk
  have hk6 : k < 6 := by simpa [dataPat] using hk
  clear hk
  interval_cases k
  · exact isPrefixOf_head_ne _ _ (by decide)
  · exact isPrefixOf_head_ne _ _ (by decide)
  · exact isPrefixOf_head_ne _ _ (by decide)
  · exact isPrefixOf_head_ne _ _ (by decide)
  · exact isPrefixOf_head_ne _ _ (by decide)

/-- `dataCore` strips a final closing quote. -/
theorem dataCore_concat (A : Str) : dataCore (A ++ [quoteChar]) = some A := by
  unfold dataCore
  rw [List.reverse_append]
  simp

/-- The data group of a string ending in `data="<P>"` with a newline
before the (last) `data="` and no later `data="` occurrence is `P`. -/
theorem dataGroup_eq (u P : Str) (hnl : '\n' ∈ u)
    (hP : occurs dataPat (P ++ [quoteChar]) = false) :
    dataGroup ((u ++ dataPat ++ P) ++ [quoteChar]) = some P := by
  unfold dataGroup
  rw [dataCore_concat, Option.some_bind]
  have hPonly : occurs dataPat P = false := by
    rcases hb : occurs dataPat P with _ | _
    · rfl
    · exfalso
      have : occurs dataPat (P ++ [quoteChar]) = true := by
        clear hP
        induction P with
        | nil => simp [occurs, dataPat] at hb
        | cons c rest ih =>
          simp only [occurs, Bool.or_eq_true] at hb ⊢
          rcases hb with hb | hb
          · left
            rw [List.isPrefixOf_iff_prefix] at hb ⊢
            exact hb.trans (by simp)
          · exact Or.inr (ih hb)
      rw [hP] at this
      exact Bool.noConfusion this
  exact lastOccSuffixNl_append 'd' _ P u false (Or.inr hnl) hPonly
    (dataPat_straddle P)

/-- Evaluation of `_parse_broadcast_response` once the line split is
known to produce at least two lines. -/
theorem parse_eq_of_split (s l1 l2 : Str) (ls : List Str)
    (hsplit : pySplit '\n' s = l1 :: l2 :: ls) :
    parse_broadcast_response s =
      (match lastOccSuffix resultPat l2 with
       | some t =>
         if grpAfter t = [] then .ok ⟨.ERROR, []⟩
         else
           match strToInt (grpAfter t) with
           | some v =>
             if v = -1 then .ok ⟨.SUCCESS, (dataGroup s).getD []⟩
             else .ok ⟨.ERROR, []⟩
           | none => .error ()
       | none => .ok ⟨.ERROR, []⟩) := by
  unfold parse_broadcast_response
  rw [hsplit]

/-- Characters of a parsable integer group are never `r`. -/
theorem intText_ne_r (numStr : Str) (hint : isIntText numStr) :
    ∀ c ∈ numStr, c ≠ 'r' := by
  intro c hc
  rcases intText_chars numStr hint c hc with rfl | hd
  · decide
  · intro he
    subst he
    exact absurd hd (by decide)

/-- The `result=` group on the second line: when the second line is
`pre ++ "result=" ++ numStr ++ post` with `numStr` a parsable integer,
`post` not starting with a digit and containing no further `result=`,
the parser's status is Success exactly for the integer `-1`. -/
theorem parse_result_status (l1 l2 rest pre numStr post : Str)
    (hl1 : ∀ c ∈ l1, c ≠ '\n') (hl2 : ∀ c ∈ l2, c ≠ '\n')
    (hrest : rest = [] ∨ ∃ r2, rest = '\n' :: r2)
    (hdecomp : l2 = pre ++ resultPat ++ numStr ++ post)
    (hint : isIntText numStr)
    (hpost : ∀ c, post.head? = some c → ¬ c.isDigit = true)
    (hocc : occurs resultPat post = false) :
    (parse_broadcast_response (l1 ++ '\n' :: (l2 ++ rest))).map
        Response.status =
      .ok (if strToInt numStr = some (-1) then ResponseStatus.SUCCESS
        else ResponseStatus.ERROR) := by
  obtain ⟨ls, hsplit⟩ := pySplit_two_lines l1 l2 rest hl1 hl2 hrest
  rw [parse_eq_of_split _ l1 l2 ls hsplit]
  have hdecomp' : l2 = (pre ++ resultPat) ++ (numStr ++ post) := by
    rw [hdecomp]
    simp [List.append_assoc]
  have hoccNP : occurs resultPat (numStr ++ post) = false :=
    occurs_append_of_ne_head 'r' _ numStr post (intText_ne_r numStr hint) hocc
  have hlast : lastOccSuffix resultPat l2 = some (numStr ++ post) := by
    rw [hdecomp']
    exact lastOccSuffix_append 'r' _ (numStr ++ post) pre hoccNP
      (resultPat_straddle _)
  rw [hlast]
  simp only [grpAfter_append_intText numStr post hint hpost]
  rw [if_neg (intText_ne_nil numStr hint)]
  obtain ⟨v, hv⟩ := strToInt_of_intText numStr hint
  rw [hv]
  by_cases hvv : v = -1
  · subst hvv
    simp [hv, Except.map]
  · simp [hv, hvv, Except.map]

/-- Output with fewer than two lines, or whose second line has no
`result=` occurrence, parses to the default Error response. -/
theorem parse_no_result (s l1 l2 rest : Str)
    (hl1 : ∀ c ∈ l1, c ≠ '\n') (hl2 : ∀ c ∈ l2, c ≠ '\n')
    (hrest : rest = [] ∨ ∃ r2, rest = '\n' :: r2) :
    ((∀ c ∈ s, c ≠ '\n') → parse_broadcast_response s = .ok ⟨.ERROR, []⟩) ∧
    (occurs resultPat l2 = false →
      parse_broadcast_response (l1 ++ '\n' :: (l2 ++ rest)) =
        .ok ⟨.ERROR, []⟩) := by
  constructor
  · intro hs
    unfold parse_broadcast_response
    rw [pySplit_no_sep '\n' s hs]
  · intro hno
    obtain ⟨ls, hsplit⟩ := pySplit_two_lines l1 l2 rest hl1 hl2 hrest
    rw [parse_eq_of_split _ l1 l2 ls hsplit]
    rw [lastOccSuffix_of_no_occ resultPat l2 (by decide) hno]

/-- A last `result=` occurrence followed by neither a digit nor a minus
sign gives an empty group, hence the default Error response. -/
theorem parse_empty_group (l1 l2 rest pre post : Str)
    (hl1 : ∀ c ∈ l1, c ≠ '\n') (hl2 : ∀ c ∈ l2, c ≠ '\n')
    (hrest : rest = [] ∨ ∃ r2, rest = '\n' :: r2)
    (hdecomp : l2 = pre ++ resultPat ++ post)
    (hpost : post = [] ∨ ∃ c post', post = c :: post' ∧ c ≠ '-' ∧
      ¬ c.isDigit = true)
    (hocc : occurs resultPat post = false) :
    parse_broadcast_response (l1 ++ '\n' :: (l2 ++ rest)) =
      .ok ⟨.ERROR, []⟩ := by
  obtain ⟨ls, hsplit⟩ := pySplit_two_lines l1 l2 rest hl1 hl2 hrest
  rw [parse_eq_of_split _ l1 l2 ls hsplit]
  have hlast : lastOccSuffix resultPat l2 = some post := by
    rw [hdecomp]
    exact lastOccSuffix_append 'r' _ post pre hocc (resultPat_straddle _)
  rw [hlast]
  have hg : grpAfter post = [] := by
    rcases hpost with rfl | ⟨c, post', rfl, hcm, hcd⟩
    · rfl
    · simp only [grpAfter, if_neg hcm]
      simp [List.takeWhile_cons, hcd]
  simp [hg]

/-- On a `result=-1` reply whose stdout ends in a `data="<P>"` field with
a newline before the (last) `data="`, the parser returns Success with
payload `P` (which may itself contain newlines). -/
theorem parse_success_data (l1 l2 rest pre numStr post u P : Str)
    (hl1 : ∀ c ∈ l1, c ≠ '\n') (hl2 : ∀ c ∈ l2, c ≠ '\n')
    (hrest : rest = [] ∨ ∃ r2, rest = '\n' :: r2)
    (hdecomp : l2 = pre ++ resultPat ++ numStr ++ post)
    (hint : isIntText numStr)
    (hpost : ∀ c, post.head? = some c → ¬ c.isDigit = true)
    (hocc : occurs resultPat post = false)
    (hm1 : strToInt numStr = some (-1))
    (hs_eq : l1 ++ '\n' :: (l2 ++ rest) = (u ++ dataPat ++ P) ++ [quoteChar])
    (hnl : '\n' ∈ u)
    (hPq : occurs dataPat (P ++ [quoteChar]) = false) :
    parse_broadcast_response (l1 ++ '\n' :: (l2 ++ rest)) =
      .ok ⟨.SUCCESS, P⟩ := by
  obtain ⟨ls, hsplit⟩ := pySplit_two_lines l1 l2 rest hl1 hl2 hrest
  rw [parse_eq_of_split _ l1 l2 ls hsplit]
  have hdecomp' : l2 = (pre ++ resultPat) ++ (numStr ++ post) := by
    rw [hdecomp]
    simp [List.append_assoc]
  have hoccNP : occurs resultPat (numStr ++ post) = false :=
    occurs_append_of_ne_head 'r' _ numStr post (intText_ne_r numStr hint) hocc
  have hlast : lastOccSuffix resultPat l2 = some (numStr ++ post) := by
    rw [hdecomp']
    exact lastOccSuffix_append 'r' _ (numStr ++ post) pre hoccNP
      (resultPat_straddle _)
  rw [hlast]
  simp only [grpAfter_append_intText numStr post hint hpost]
  rw [if_neg (intText_ne_nil numStr hint), hm1]
  have hD : dataGroup (u ++ (dataPat ++ (P ++ [quoteChar]))) = some P := by
    rw [show u ++ (dataPat ++ (P ++ [quoteChar])) =
      (u ++ dataPat ++ P) ++ [quoteChar] by simp [List.append_assoc]]
    exact dataGroup_eq u P hnl hPq
  simp [hs_eq, hD]

/-- C1, corrected: the regex `.*\n.*result=...` anchors one full line and
one newline, so the `result=<int>` must sit on the SECOND line of stdout
(not on an arbitrary line).  There: the last `result=` occurrence of the
second line with a parsable integer group gives Success exactly for
`-1` and Error for any other integer; fewer than two lines, a second
line without `result=`, or a `result=` followed by neither digit nor
minus give Error; on Success a trailing `data="<payload>"` field is
extracted, with the payload free to span newlines; and the claim's
example stdout parses to `Success("X")`. -/
theorem C1_broadcast_parsing :
    (∀ l1 l2 rest pre numStr post : Str,
      (∀ c ∈ l1, c ≠ '\n') → (∀ c ∈ l2, c ≠ '\n') →
      (rest = [] ∨ ∃ r2, rest = '\n' :: r2) →
      l2 = pre ++ resultPat ++ numStr ++ post →
      isIntText numStr →
      (∀ c, post.head? = some c → ¬ c.isDigit = true) →
      occurs resultPat post = false →
      (parse_broadcast_response (l1 ++ '\n' :: (l2 ++ rest))).map
          Response.status =
        .ok (if strToInt numStr = some (-1) then ResponseStatus.SUCCESS
          else ResponseStatus.ERROR)) ∧
    (∀ s : Str, (∀ c ∈ s, c ≠ '\n') →
      parse_broadcast_response s = .ok ⟨.ERROR, []⟩) ∧
    (∀ l1 l2 rest : Str,
      (∀ c ∈ l1, c ≠ '\n') → (∀ c ∈ l2, c ≠ '\n') →
      (rest = [] ∨ ∃ r2, rest = '\n' :: r2) →
      occurs resultPat l2 = false →
      parse_broadcast_response (l1 ++ '\n' :: (l2 ++ rest)) =
        .ok ⟨.ERROR, []⟩) ∧
    (∀ l1 l2 rest pre post : Str,
      (∀ c ∈ l1, c ≠ '\n') → (∀ c ∈ l2, c ≠ '\n') →
      (rest = [] ∨ ∃ r2, rest = '\n' :: r2) →
      l2 = pre ++ resultPat ++ post →
      (post = [] ∨ ∃ c post', post = c :: post' ∧ c ≠ '-' ∧
        ¬ c.isDigit = true) →
      occurs resultPat post = false →
      parse_broadcast_response (l1 ++ '\n' :: (l2 ++ rest)) =
        .ok ⟨.ERROR, []⟩) ∧
    (∀ l1 l2 rest pre numStr post u P : Str,
      (∀ c ∈ l1, c ≠ '\n') → (∀ c ∈ l2, c ≠ '\n') →
      (rest = [] ∨ ∃ r2, rest = '\n' :: r2) →
      l2 = pre ++ resultPat ++ numStr ++ post →
      isIntText numStr →
      (∀ c, post.head? = some c → ¬ c.isDigit = true) →
      occurs resultPat post = false →
      strToInt numStr = some (-1) →
      l1 ++ '\n' :: (l2 ++ rest) = (u ++ dataPat ++ P) ++ [quoteChar] →
      '\n' ∈ u →
      occurs dataPat (P ++ [quoteChar]) = false →
      parse_broadcast_response (l1 ++ '\n' :: (l2 ++ rest)) =
        .ok ⟨.SUCCESS, P⟩) ∧
    parse_broadcast_response
        (("Broadcasting: Intent \x7b ... \x7d\nBroadcast completed: result=-1, data=\"X\"").data) =
      .ok ⟨.SUCCESS, ['X']⟩ := by
  refine ⟨parse_result_status,
    fun s hs => (parse_no_result s [] [] [] (by simp) (by simp)
      (Or.inl rfl)).1 hs,
    fun l1 l2 rest h1 h2 h3 h4 =>
      (parse_no_result (l1 ++ '\n' :: (l2 ++ rest)) l1 l2 rest h1 h2 h3).2 h4,
    parse_empty_group, parse_success_data, by decide⟩

/-- Witness for C1 (corrected), applying the theorem's clauses at
concrete stdout values: `"ok\nz result=5"` gives Error status (integer
other than `-1`), and `"ok\nno reply"` gives the default Error. -/
theorem C1_witness :
    (parse_broadcast_response (("ok").data ++ '\n' ::
        ((("z ").data ++ resultPat ++ ['5'] ++ []) ++ []))).map
      Response.status = .ok ResponseStatus.ERROR ∧
    parse_broadcast_response (("ok").data ++ '\n' ::
        (("no reply").data ++ [])) = .ok ⟨.ERROR, []⟩ := by
  constructor
  · have h := C1_broadcast_parsing.1 ("ok").data
      (("z ").data ++ resultPat ++ ['5'] ++ []) [] ("z ").data ['5'] []
      (by decide) (by decide) (Or.inl rfl) rfl (Or.inr (by decide))
      (by intro c hc; simp at hc) (by decide)
    simpa using h
  · exact C1_broadcast_parsing.2.2.1 ("ok").data ("no reply").data []
      (by decide) (by decide) (Or.inl rfl) (by decide)

/-- Counterexample to C1 as stated: the stdout `"result=-1"` consists of
exactly one line of the form `result=<int>` with value `-1` (shown by the
split and the decomposition), yet the parser yields Error, not Success —
and likewise when the `result=-1` line is the third line
(`"a\nb\nresult=-1"`).  The "contains a line of the form result=<int>"
reading is therefore false; only the second line is consulted. -/
theorem C1_counterexample :
    pySplit '\n' (("result=-1").data) = [("result=-1").data] ∧
    ("result=-1").data = [] ++ resultPat ++ ("-1").data ++ [] ∧
    parse_broadcast_response (("result=-1").data) = .ok ⟨.ERROR, []⟩ ∧
    parse_broadcast_response (("a\nb\nresult=-1").data) =
      .ok ⟨.ERROR, []⟩ := by
  refine ⟨by decide, by decide, by decide, by decide⟩

/-! ## C7 — push-encoding round-trip -/

/-- Hex digits written by `quoteByte` decode to their value. -/
theorem hexVal_hexDigitChar : ∀ n < 16, hexVal (hexDigitChar n) = some n := by
  decide

set_option maxRecDepth 4096 in
/-- Safe bytes are ASCII, unaffected by `Char.ofNat`/`Char.toNat`, and
distinct from the two special decoder characters. -/
theorem safeByte_facts : ∀ b < 256, isSafeByte b = true →
    ((Char.ofNat b).toNat = b ∧ ¬ Char.ofNat b = '%' ∧
      ¬ Char.ofNat b = '+' ∧ b < 128) := by
  decide

/-- Percent-decoding undoes `quoteByte`, byte by byte. -/
theorem percentDecode_quoteByte (b : Nat) (hb : b < 256) (rest : Str) :
    percentDecode (quoteByte b ++ rest) = b :: percentDecode rest := by
  by_cases h32 : b = 32
  · subst h32
    rfl
  · by_cases hsafe : isSafeByte b = true
    · obtain ⟨ht, hp, hpl, h128⟩ := safeByte_facts b hb hsafe
      rw [show quoteByte b = [Char.ofNat b] by simp [quoteByte, h32, hsafe]]
      rw [List.singleton_append]
      rw [show percentDecode (Char.ofNat b :: rest) =
          utf8EncodeCp (Char.ofNat b).toNat ++ percentDecode rest by
        simp [percentDecode, hp, hpl]]
      rw [ht]
      unfold utf8EncodeCp
      rw [if_pos h128]
      rfl
    · rw [show quoteByte b =
        ['%', hexDigitChar (b / 16), hexDigitChar (b % 16)] by
          simp [quoteByte, h32, hsafe]]
      rw [show (['%', hexDigitChar (b / 16), hexDigitChar (b % 16)] ++ rest) =
        '%' :: hexDigitChar (b / 16) :: hexDigitChar (b % 16) :: rest from rfl]
      rw [show percentDecode
          ('%' :: hexDigitChar (b / 16) :: hexDigitChar (b % 16) :: rest) =
          (match hexVal (hexDigitChar (b / 16)),
              hexVal (hexDigitChar (b % 16)) with
           | some a, some c => (16 * a + c) :: percentDecode rest
           | _, _ => 37 :: percentDecode
              (hexDigitChar (b / 16) :: hexDigitChar (b % 16) :: rest)) from rfl]
      rw [hexVal_hexDigitChar (b / 16) (by omega),
        hexVal_hexDigitChar (b % 16) (by omega)]
      show (16 * (b / 16) + b % 16) :: percentDecode rest = b :: percentDecode rest
      congr 1
      omega

/-- UTF-8 encoding produces bytes. -/
theorem utf8EncodeCp_lt (n : Nat) (h : n < 1114112) :
    ∀ b ∈ utf8EncodeCp n, b < 256 := by
  intro b hb
  unfold utf8EncodeCp at hb
  by_cases h1 : n < 128
  · rw [if_pos h1] at hb
    simp at hb
    omega
  · rw [if_neg h1] at hb
    by_cases h2 : n < 2048
    · rw [if_pos h2] at hb
      simp at hb
      rcases hb with rfl | rfl <;> omega
    · rw [if_neg h2] at hb
      by_cases h3 : n < 65536
      · rw [if_pos h3] at hb
        simp at hb
        rcases hb with rfl | rfl | rfl <;> omega
      · rw [if_neg h3] at hb
        simp at hb
        rcases hb with rfl | rfl | rfl | rfl <;> omega

/-- Percent-decoding undoes the quoting of a whole byte sequence. -/
theorem percentDecode_flat (bs : List Nat) (h : ∀ b ∈ bs, b < 256)
    (rest : Str) :
    percentDecode (bs.flatMap quoteByte ++ rest) = bs ++ percentDecode rest := by
  induction bs with
  | nil => simp
  | cons b bs' ih =>
    simp only [List.flatMap_cons, List.append_assoc]
    rw [percentDecode_quoteByte b (h b (by simp)),
      ih fun x hx => h x (by simp [hx])]
    rfl

/-- Every `Char` code point is in Unicode range. -/
theorem char_toNat_lt (c : Char) : c.toNat < 1114112 := by
  rcases c.valid with h | h
  · have h2 : c.toNat < 55296 := h
    omega
  · have h2 : c.toNat < 1114112 := h.2
    exact h2

/-- Percent-decoding `quote_plus` output recovers the UTF-8 bytes. -/
theorem percentDecode_quote_plus (s : Str) :
    percentDecode (quote_plus s) =
      s.flatMap (fun c => utf8EncodeCp c.toNat) := by
  induction s with
  | nil => rfl
  | cons c s' ih =>
    show percentDecode ((c :: s').flatMap fun c =>
      (utf8EncodeCp c.toNat).flatMap quoteByte) = _
    simp only [List.flatMap_cons]
    rw [percentDecode_flat _ (utf8EncodeCp_lt _ (char_toNat_lt c)) _]
    show utf8EncodeCp c.toNat ++ percentDecode (quote_plus s') = _
    rw [ih]

/-- Strict UTF-8 decoding undoes the encoding of a valid code point at
the head of a byte stream. -/
theorem utf8DecodeAux_encode (n : Nat)
    (hval : n < 55296 ∨ (57343 < n ∧ n < 1114112)) (bs : List Nat) :
    utf8DecodeAux none (utf8EncodeCp n ++ bs) =
      (utf8DecodeAux none bs).map (n :: ·) := by
  unfold utf8EncodeCp
  by_cases h1 : n < 128
  · rw [if_pos h1]
    rw [show ([n] ++ bs) = n :: bs from rfl]
    simp only [utf8DecodeAux, if_pos h1]
  · rw [if_neg h1]
    by_cases h2 : n < 2048
    · rw [if_pos h2]
      rw [show ([192 + n / 64, 128 + n % 64] ++ bs) =
        (192 + n / 64) :: (128 + n % 64) :: bs from rfl]
      have hb0 : ¬ (192 + n / 64) < 128 := by omega
      have hb1 : 194 ≤ 192 + n / 64 ∧ 192 + n / 64 < 224 := by omega
      have hc1 : 128 ≤ 128 + n % 64 ∧ 128 + n % 64 < 192 := by omega
      simp only [utf8DecodeAux, if_neg hb0, if_neg (by omega : ¬ (192 + n / 64) < 128), if_pos hb1, if_pos hc1]
      rw [if_pos trivial]
      rw [if_pos (show (128:Nat) ≤ (192 + n / 64 - 192) * 64 + (128 + n % 64 - 128) ∧
        ((192 + n / 64 - 192) * 64 + (128 + n % 64 - 128) < 55296 ∨
          57343 < (192 + n / 64 - 192) * 64 + (128 + n % 64 - 128)) ∧
        (192 + n / 64 - 192) * 64 + (128 + n % 64 - 128) < 1114112 by
          refine ⟨by omega, Or.inl (by omega), by omega⟩)]
      rw [show (192 + n / 64 - 192) * 64 + (128 + n % 64 - 128) = n by omega]
    · rw [if_neg h2]
      by_cases h3 : n < 65536
      · rw [if_pos h3]
        rw [show ([224 + n / 4096, 128 + n / 64 % 64, 128 + n % 64] ++ bs) =
          (224 + n / 4096) :: (128 + n / 64 % 64) :: (128 + n % 64) :: bs
          from rfl]
        have hb0 : ¬ (224 + n / 4096) < 128 := by omega
        have hb1 : ¬ (194 ≤ 224 + n / 4096 ∧ 224 + n / 4096 < 224) := by omega
        have hb2 : 224 ≤ 224 + n / 4096 ∧ 224 + n / 4096 < 240 := by omega
        have hc1 : 128 ≤ 128 + n / 64 % 64 ∧ 128 + n / 64 % 64 < 192 := by omega
        have hc2 : 128 ≤ 128 + n % 64 ∧ 128 + n % 64 < 192 := by omega
        simp only [utf8DecodeAux, if_neg hb0, if_neg hb1, if_pos hb2, if_pos hc1,
          if_pos hc2]
        rw [if_neg (by omega : ¬ (2:Nat) = 1)]
        rw [if_pos trivial]
        rw [if_pos (show (2048:Nat) ≤ ((224 + n / 4096 - 224) * 64 +
            (128 + n / 64 % 64 - 128)) * 64 + (128 + n % 64 - 128) ∧
          (((224 + n / 4096 - 224) * 64 + (128 + n / 64 % 64 - 128)) * 64 +
              (128 + n % 64 - 128) < 55296 ∨
            57343 < ((224 + n / 4096 - 224) * 64 + (128 + n / 64 % 64 - 128)) *
              64 + (128 + n % 64 - 128)) ∧
          ((224 + n / 4096 - 224) * 64 + (128 + n / 64 % 64 - 128)) * 64 +
            (128 + n % 64 - 128) < 1114112 by
          refine ⟨by omega, ?_, by omega⟩
          rcases hval with hv | hv
          · exact Or.inl (by omega)
          · exact Or.inr (by omega))]
        rw [show ((224 + n / 4096 - 224) * 64 + (128 + n / 64 % 64 - 128)) * 64 +
          (128 + n % 64 - 128) = n by omega]
      · rw [if_neg h3]
        rw [show ([240 + n / 262144, 128 + n / 4096 % 64, 128 + n / 64 % 64,
            128 + n % 64] ++ bs) =
          (240 + n / 262144) :: (128 + n / 4096 % 64) :: (128 + n / 64 % 64) ::
            (128 + n % 64) :: bs from rfl]
        have hn4 : n < 1114112 := by
          rcases hval with hv | hv
          · omega
          · exact hv.2
        have hb0 : ¬ (240 + n / 262144) < 128 := by omega
        have hb1 : ¬ (194 ≤ 240 + n / 262144 ∧ 240 + n / 262144 < 224) := by
          omega
        have hb2 : ¬ (224 ≤ 240 + n / 262144 ∧ 240 + n / 262144 < 240) := by
          omega
        have hb3 : 240 ≤ 240 + n / 262144 ∧ 240 + n / 262144 < 245 := by omega
        have hc1 : 128 ≤ 128 + n / 4096 % 64 ∧ 128 + n / 4096 % 64 < 192 := by
          omega
        have hc2 : 128 ≤ 128 + n / 64 % 64 ∧ 128 + n / 64 % 64 < 192 := by omega
        have hc3 : 128 ≤ 128 + n % 64 ∧ 128 + n % 64 < 192 := by omega
        simp only [utf8DecodeAux, if_neg hb0, if_neg hb1, if_neg hb2, if_pos hb3,
          if_pos hc1, if_pos hc2, if_pos hc3]
        rw [if_neg (by omega : ¬ (3:Nat) = 1)]
        rw [if_pos trivial]
        rw [if_pos (show (65536:Nat) ≤ (((240 + n / 262144 - 240) * 64 +
            (128 + n / 4096 % 64 - 128)) * 64 + (128 + n / 64 % 64 - 128)) * 64 +
            (128 + n % 64 - 128) ∧
          ((((240 + n / 262144 - 240) * 64 + (128 + n / 4096 % 64 - 128)) * 64 +
              (128 + n / 64 % 64 - 128)) * 64 + (128 + n % 64 - 128) < 55296 ∨
            57343 < (((240 + n / 262144 - 240) * 64 +
              (128 + n / 4096 % 64 - 128)) * 64 + (128 + n / 64 % 64 - 128)) *
              64 + (128 + n % 64 - 128)) ∧
          (((240 + n / 262144 - 240) * 64 + (128 + n / 4096 % 64 - 128)) * 64 +
            (128 + n / 64 % 64 - 128)) * 64 + (128 + n % 64 - 128) < 1114112 by
          refine ⟨by omega, Or.inr (by omega), by omega⟩)]
        rw [show (((240 + n / 262144 - 240) * 64 + (128 + n / 4096 % 64 - 128)) *
          64 + (128 + n / 64 % 64 - 128)) * 64 + (128 + n % 64 - 128) = n by
          omega]
        rw [if_neg (by omega : ¬ (3:Nat) - 1 = 1)]

/-- Strict UTF-8 decoding undoes the encoding of a whole string. -/
theorem utf8DecodeAux_flat (s : Str) :
    utf8DecodeAux none (s.flatMap fun c => utf8EncodeCp c.toNat) =
      some (s.map Char.toNat) := by
  induction s with
  | nil => rfl
  | cons c s' ih =>
    simp only [List.flatMap_cons, List.map_cons]
    rw [utf8DecodeAux_encode c.toNat c.valid _, ih]
    rfl

/-- C7: the push encoding round-trips — decoding (CPython
`unquote_plus` semantics) the `quote_plus` encoding applied by
`write_to_device` returns the original text, for every non-empty text. -/
theorem C7_encode_roundtrip (t : Str) (h : t ≠ []) :
    unquote_plus (quote_plus t) = some t := by
  unfold unquote_plus utf8DecodeBytes
  rw [percentDecode_quote_plus, utf8DecodeAux_flat]
  show some (List.map Char.ofNat (List.map Char.toNat t)) = some t
  rw [List.map_map, show Char.ofNat ∘ Char.toNat = id from
    funext Char.ofNat_toNat, List.map_id]

/-- Witness for C7 at the concrete text `"hello world"`. -/
theorem C7_witness :
    ("hello world").data ≠ [] ∧
    unquote_plus (quote_plus (("hello world").data)) =
      some (("hello world").data) :=
  ⟨by decide, C7_encode_roundtrip _ (by decide)⟩
